import Mathlib

/-!
Verification of the calcvar corpus pipeline: a shallow embedding of the
pure core of `build_papers_db.py` (identifier normalization, paper-record
merging and deduplication, relevance scoring) and `analyze.py` (thread
assignment, influence ranking, citation-graph construction, layout
seeding), with proofs of the specified merge, dedupe, scoring, graph and
layout properties.

Python strings are modelled through `String.data` (lists of characters)
and compared by Unicode code point, exactly as Python compares `str`
values; Python `dict`s are modelled as insertion-ordered association
lists; optional / missing dictionary entries are modelled with `Option`;
Python `int` is `ℤ` and Python `float` is `ℚ` in the builder (where only
order and max are used) and `ℝ` in the analyzer (where logarithms occur).
-/

namespace Calcvar

/-! ### String primitives -/

/-- Lexicographic comparison of character lists by code point: the order
Python uses on `str` (for `sorted` and `<`). -/
def lexLt : List Char → List Char → Bool
  | [], [] => false
  | [], _ :: _ => true
  | _ :: _, [] => false
  | c :: cs, d :: ds =>
    if c.val.toNat < d.val.toNat then true
    else if d.val.toNat < c.val.toNat then false
    else lexLt cs ds

/-- Python `<` on strings. -/
def strLt (a b : String) : Bool := lexLt a.data b.data

/-- Insert into a strictly sorted list, skipping an element already
present. -/
def insertUnique (a : String) : List String → List String
  | [] => [a]
  | b :: t =>
    if a = b then b :: t
    else if strLt a b then a :: b :: t
    else b :: insertUnique a t

/-- Python `sorted(set(xs))`: the strictly increasing enumeration of the
distinct elements of `xs`. -/
def sortedUnion (xs : List String) : List String := xs.foldr insertUnique []

/-- Boolean test that a list of strings is strictly increasing. -/
def sortedStrB : List String → Bool
  | [] => true
  | [_] => true
  | a :: b :: t => strLt a b && sortedStrB (b :: t)

/-- ASCII lower-casing of one character (`str.lower` on the corpus data,
which is ASCII-normalized upstream). -/
def charLower (c : Char) : Char :=
  if 'A' ≤ c ∧ c ≤ 'Z' then Char.ofNat (c.toNat + 32) else c

/-- Characters stripped by Python `str.strip()` with no argument. -/
def isPySpace (c : Char) : Bool :=
  c = ' ' || c = '\t' || c = '\n' || c = '\r' || c = '\x0b' || c = '\x0c'

def isLowerAlnum (c : Char) : Bool :=
  ('a' ≤ c && c ≤ 'z') || ('0' ≤ c && c ≤ '9')

/-- Embeds `re.sub(r"[^a-z0-9]+", sep, ·)` on lower-cased text: every maximal run
of characters outside `[a-z0-9]` becomes a single copy of `sep`.  The
boolean argument records whether the previous character was part of such a
run. -/
def collapseAux (sep : Char) : List Char → Bool → List Char
  | [], _ => []
  | c :: t, inRun =>
    if isLowerAlnum c then c :: collapseAux sep t false
    else if inRun then collapseAux sep t true
    else sep :: collapseAux sep t true

def collapseRuns (sep : Char) (cs : List Char) : List Char := collapseAux sep cs false

/-- Strip characters satisfying `p` from both ends (Python `strip`). -/
def stripBoth (p : Char → Bool) (cs : List Char) : List Char :=
  ((cs.dropWhile p).reverse.dropWhile p).reverse

/-- Embeds `re.sub(r"\\[nrt]", " ", ·)`: literal backslash-escape sequences in
OpenAlex titles are replaced by a space. -/
def stripEscapes : List Char → List Char
  | '\\' :: 'n' :: t => ' ' :: stripEscapes t
  | '\\' :: 'r' :: t => ' ' :: stripEscapes t
  | '\\' :: 't' :: t => ' ' :: stripEscapes t
  | c :: t => c :: stripEscapes t
  | [] => []

/-- Embeds `normalize_title_key`: lower-case, drop literal escapes, collapse all
non-alphanumeric runs to single spaces and strip. -/
def normalize_title_key (title : String) : String :=
  ⟨stripBoth isPySpace (collapseRuns ' ' (stripEscapes (title.data.map charLower)))⟩

/-- The title fallback key of `canonical_paper_id`:
`re.sub(r"[^a-z0-9]+", "-", title.lower()).strip("-")`. -/
def titleDashKey (title : String) : String :=
  ⟨stripBoth (fun c => c = '-') (collapseRuns '-' (title.data.map charLower))⟩

def startsWithChars : List Char → List Char → Bool
  | [], _ => true
  | _ :: _, [] => false
  | p :: ps, c :: cs => p = c && startsWithChars ps cs

/-- Embeds `short_openalex_id` on a non-empty identifier: strip whitespace and, if
the value ends in `/` followed by `A` or `W` and one or more digits,
return that trailing `[AW]\d+` group, else the stripped value. -/
def short_openalex_core (s : String) : String :=
  let v := stripBoth isPySpace s.data
  match v.reverse.span Char.isDigit with
  | (dsRev, c :: '/' :: _) =>
    if (c = 'A' || c = 'W') && dsRev ≠ [] then ⟨c :: dsRev.reverse⟩ else ⟨v⟩
  | _ => ⟨v⟩

/-- Embeds `short_openalex_id`: `None` on falsy input. -/
def short_openalex_id (oa : Option String) : Option String :=
  match oa with
  | none => none
  | some s => if s = "" then none else some (short_openalex_core s)

/-! ### Paper records and `canonical_paper_id` -/

/-- Truthiness of an optional string (`if s:` in Python). -/
def truthy : Option String → Option String
  | some s => if s = "" then none else some s
  | none => none

/-- Truthiness of an optional integer (`if y:` in Python; `0` is falsy). -/
def truthyInt : Option ℤ → Option ℤ
  | some y => if y = 0 then none else some y
  | none => none

/-- Embeds `x.get(k) or 0` for integer fields. -/
def orZ (o : Option ℤ) : ℤ := o.getD 0

/-- Embeds `x.get(k) or 0` for float fields. -/
def orQ (o : Option ℚ) : ℚ := o.getD 0

/-- Embeds `canonical_paper_id`: strict identifier precedence DOI > arXiv >
OpenAlex > normalized title + year. -/
def canonical_paper_id (doi arxiv_id openalex_id : Option String) (title : String)
    (year : Option ℤ) : String :=
  match truthy doi with
  | some d => "doi:" ++ d
  | none =>
  match truthy arxiv_id with
  | some a => "arxiv:" ++ a
  | none =>
  match truthy openalex_id with
  | some o => "openalex:" ++ short_openalex_core o
  | none =>
    let y := match year with
      | some y => if y = 0 then "na" else toString y
      | none => "na"
    "title:" ++ titleDashKey title ++ ":" ++ y

/-- One raw or merged paper record (the `dict` rows flowing through
`build_papers_db.py`); a `none` field is an absent or `None` entry. -/
structure PaperRow where
  id : String := ""
  title : String := ""
  year : Option ℤ := none
  authors : List String := []
  venue : Option String := none
  doi : Option String := none
  arxiv_id : Option String := none
  openalex_id : Option String := none
  url : Option String := none
  cited_by_count : Option ℤ := none
  ss_cited_by_count : Option ℤ := none
  relevance_score : Option ℚ := none
  referenced_works : List String := []
  tags : List String := []
  relevance_reasons : List String := []
  matched_queries : List String := []
  source_types : List String := []
  aliases : List String := []
deriving DecidableEq, Repr

/-- The two-element truthy collection `[x for x in (a, b) if x]`. -/
def truthy2 (a b : Option String) : List String := (truthy a).toList ++ (truthy b).toList

def truthyYear2 (a b : Option ℤ) : List ℤ := (truthyInt a).toList ++ (truthyInt b).toList

/-- Python `max` over a non-empty list, given as head and tail. -/
def listMax (x : ℤ) (xs : List ℤ) : ℤ := xs.foldl max x

/-- Embeds `_is_arxiv_doi`: DOIs of arXiv preprints (`10.48550/arxiv.`...),
case-insensitively. -/
def isArxivDoi (d : String) : Bool :=
  startsWithChars "10.48550/arxiv.".data (d.data.map charLower)

/-! ### `merge_paper_rows` and `dedupe_accepted_papers`

`merge_paper_rows(existing, incoming)` mutates and returns `existing`; the
embedding threads the successive dictionary states `e1`, ..., `e10`
explicitly.  Note that after the base swap (when `incoming` wins on
relevance) the subsequent reads of `existing` see the swapped-in base, as
in the source. -/

/-- Base selection: the row with the stronger relevance score wins and
keeps its field values, but the other row's `id` and both alias sets are
preserved (minus empties and the base's own id). -/
def mergeBase (existing incoming : PaperRow) : PaperRow :=
  if orQ existing.relevance_score < orQ incoming.relevance_score then
    let als := sortedUnion (((existing.aliases ++ [existing.id]) ++ incoming.aliases).filter (fun a => decide (a ≠ "") && decide (a ≠ incoming.id)))
    { incoming with aliases := als }
  else
    let als := sortedUnion (((existing.aliases ++ [incoming.id]) ++ incoming.aliases).filter (fun a => decide (a ≠ "") && decide (a ≠ existing.id)))
    { existing with aliases := als }

/-- The three `max` assignments for the count/score fields; note they read
the (possibly swapped) base on the left, exactly as the source reads the
mutated `existing`. -/
def mergeCounts (e incoming : PaperRow) : PaperRow :=
  { e with cited_by_count := some (max (orZ e.cited_by_count) (orZ incoming.cited_by_count)), ss_cited_by_count := some (max (orZ e.ss_cited_by_count) (orZ incoming.ss_cited_by_count)), relevance_score := some (max (orQ e.relevance_score) (orQ incoming.relevance_score)) }

/-- Keep richer referenced_works list. -/
def mergeRefs (e incoming : PaperRow) : PaperRow :=
  if e.referenced_works.length < incoming.referenced_works.length then
    { e with referenced_works := incoming.referenced_works }
  else e

/-- Embeds `sorted(v for v in set(xs) | set(ys) if v)`. -/
def unionField (xs ys : List String) : List String :=
  sortedUnion ((xs ++ ys).filter (fun v => decide (v ≠ "")))

/-- Union of the five set-valued fields. -/
def mergeSets (e incoming : PaperRow) : PaperRow :=
  { e with authors := unionField e.authors incoming.authors, tags := unionField e.tags incoming.tags, relevance_reasons := unionField e.relevance_reasons incoming.relevance_reasons, matched_queries := unionField e.matched_queries incoming.matched_queries, source_types := unionField e.source_types incoming.source_types }

/-- Prefer the published (non-arXiv) DOI when merging preprint +
published. -/
def mergeDoi (both_dois : List String) (e : PaperRow) : PaperRow :=
  match both_dois.filter (fun d => !isArxivDoi d), both_dois with
  | d :: _, _ => { e with doi := some d }
  | [], d :: _ => { e with doi := some d }
  | [], [] => e

/-- Embeds `if not existing.get(k) and both: existing[k] = both[0]`. -/
def mergeFillArxiv (both : List String) (e : PaperRow) : PaperRow :=
  match truthy e.arxiv_id, both with
  | none, a :: _ => { e with arxiv_id := some a }
  | _, _ => e

def mergeFillOpenalex (both : List String) (e : PaperRow) : PaperRow :=
  match truthy e.openalex_id, both with
  | none, o :: _ => { e with openalex_id := some o }
  | _, _ => e

def mergeFillUrl (both : List String) (e : PaperRow) : PaperRow :=
  match truthy e.url, both with
  | none, u :: _ => { e with url := some u }
  | _, _ => e

def mergeFillVenue (both : List String) (e : PaperRow) : PaperRow :=
  match truthy e.venue, both with
  | none, v :: _ => { e with venue := some v }
  | _, _ => e

/-- Prefer the later year (published version). -/
def mergeYear (both_years : List ℤ) (e : PaperRow) : PaperRow :=
  match both_years with
  | y :: ys => { e with year := some (listMax y ys) }
  | [] => e

/-- Recompute the canonical id from the merged identifier fields; if it
changed, move the old id into the aliases and drop the new id from
them. -/
def mergeNewId (e : PaperRow) : PaperRow :=
  let new_id := canonical_paper_id e.doi e.arxiv_id e.openalex_id e.title e.year
  if new_id ≠ e.id then
    let als := sortedUnion ((e.aliases ++ [e.id]).filter (fun a => decide (a ≠ "") && decide (a ≠ new_id)))
    { e with aliases := als, id := new_id }
  else e

def merge_paper_rows (existing incoming : PaperRow) : PaperRow :=
  -- The both_* collections are taken from the original pair before the
  -- base swap can clobber them.
  mergeNewId (mergeYear (truthyYear2 existing.year incoming.year)
    (mergeFillVenue (truthy2 existing.venue incoming.venue)
      (mergeFillUrl (truthy2 existing.url incoming.url)
        (mergeFillOpenalex (truthy2 existing.openalex_id incoming.openalex_id)
          (mergeFillArxiv (truthy2 existing.arxiv_id incoming.arxiv_id)
            (mergeDoi (truthy2 existing.doi incoming.doi)
              (mergeSets (mergeRefs (mergeCounts (mergeBase existing incoming) incoming)
                incoming) incoming)))))))

/-- Insertion-ordered dictionary update used by `dedupe_accepted_papers`:
a fresh key is appended, an existing key's record is merged in place. -/
def dedupeUpsert : List (String × PaperRow) → String → PaperRow → List (String × PaperRow)
  | [], key, p => [(key, p)]
  | (k, q) :: rest, key, p =>
    if k = key then (k, merge_paper_rows q p) :: rest
    else (k, q) :: dedupeUpsert rest key p

/-- Embeds `dedupe_accepted_papers`: fold the records into a dict keyed by
normalized title and return its values in insertion order. -/
def dedupe_accepted_papers (papers : List PaperRow) : List PaperRow :=
  (papers.foldl (fun acc p => dedupeUpsert acc (normalize_title_key p.title) p) []).map
    Prod.snd

/-- Canonical-form invariant of a merged record: the numeric fields are
materialized, the set-valued fields are strictly sorted with no empty
strings, the aliases exclude the record id, and the id agrees with
`canonical_paper_id` of the record fields.  `merge_paper_rows` re-produces
every record satisfying it (and produces only such records). -/
def isMergeNormal (r : PaperRow) : Bool :=
  r.cited_by_count.isSome && r.ss_cited_by_count.isSome && r.relevance_score.isSome &&
  sortedStrB r.authors && decide ("" ∉ r.authors) &&
  sortedStrB r.tags && decide ("" ∉ r.tags) &&
  sortedStrB r.relevance_reasons && decide ("" ∉ r.relevance_reasons) &&
  sortedStrB r.matched_queries && decide ("" ∉ r.matched_queries) &&
  sortedStrB r.source_types && decide ("" ∉ r.source_types) &&
  sortedStrB r.aliases && decide ("" ∉ r.aliases) && decide (r.id ∉ r.aliases) &&
  decide (r.id = canonical_paper_id r.doi r.arxiv_id r.openalex_id r.title r.year)

/-! ### `score_paper` (relevance scoring) -/

/-- Embeds `\w` of the regex engine (ASCII range; the scorer text is lower-cased
ASCII-normalized corpus text). -/
def isWordChar (c : Char) : Bool := c.isAlphanum || c = '_'

/-- Embeds `\s` of the regex engine (ASCII range). -/
def isRegexSpace (c : Char) : Bool :=
  c = ' ' || c = '\t' || c = '\n' || c = '\r' || c = '\x0b' || c = '\x0c'

/-- The `[\s\-]` character class a space in a search term expands to. -/
def isSepChar (c : Char) : Bool := isRegexSpace c || c = '-'

mutual

/-- Match the lower-cased term against a prefix of the text.  A space in
the term matches one or more whitespace-or-hyphen characters (with
backtracking, as the regex engine resolves `[\s\-]+`); every other term
character matches literally.  On success the end-of-match boundary test
`endOk` is applied to the rest of the text. -/
def matchCore (endOk : List Char → Bool) : List Char → List Char → Bool
  | [], rest => endOk rest
  | ' ' :: ps, rest => matchSep endOk ps rest
  | _ :: _, [] => false
  | p :: ps, c :: rest => p = c && matchCore endOk ps rest
termination_by ps text => (text.length, ps.length, 1)

/-- Consume one or more separator characters, then resume `matchCore`. -/
def matchSep (endOk : List Char → Bool) (ps : List Char) : List Char → Bool
  | [] => false
  | c :: rest => isSepChar c && (matchCore endOk ps rest || matchSep endOk ps rest)
termination_by text => (text.length, ps.length, 0)

end

/-- Scan the text for a match of the term pattern whose start position
passes the boundary test `startOk` on the preceding character. -/
def searchFrom (startOk : Option Char → Bool) (endOk : List Char → Bool)
    (pat : List Char) : Option Char → List Char → Bool
  | prev, [] => startOk prev && matchCore endOk pat []
  | prev, c :: rest =>
    (startOk prev && matchCore endOk pat (c :: rest)) ||
      searchFrom startOk endOk pat (some c) rest

/-- Embeds `term_in_text`: phrase matching with word boundaries; short purely
alphanumeric terms use `\b` boundaries (any word character blocks a
match), longer terms use `(?<![a-z0-9])`/`(?![a-z0-9])` lookarounds. -/
def term_in_text (term text : String) : Bool :=
  let t := term.data.map charLower
  let shortAlnum := decide (1 ≤ t.length) && decide (t.length ≤ 4) && t.all isLowerAlnum
  let startOk : Option Char → Bool := fun prev =>
    match prev with
    | none => true
    | some c => if shortAlnum then !isWordChar c else !isLowerAlnum c
  let endOk : List Char → Bool := fun rest =>
    match rest with
    | [] => true
    | c :: _ => if shortAlnum then !isWordChar c else !isLowerAlnum c
  searchFrom startOk endOk t none text.data

/-- Domain tags and lexical signals for calculus-of-variations subfields
(`DOMAIN_TERMS`), in dictionary insertion order. -/
def DOMAIN_TERMS : List (String × List String) :=
  [("classical_calcvar",
    ["euler-lagrange", "euler lagrange", "first variation", "second variation",
     "legendre condition", "weierstrass", "calculus of variations", "variational problem",
     "variational principle"]),
   ("direct_methods",
    ["lower semicontinuity", "coercivity", "weak convergence", "sobolev", "reflexive",
     "direct method", "minimizing sequence", "weak lower semicontinuity", "existence theorem",
     "compactness", "weak topology", "functional analysis", "banach space", "morrey",
     "growth condition"]),
   ("regularity",
    ["partial regularity", "hölder continuity", "holder continuity", "de giorgi", "moser",
     "nash", "regularity of minimizers", "elliptic regularity", "schauder", "hölder",
     "lipschitz", "harnack", "a priori estimates", "bootstrap", "blow-up", "singular set",
     "hausdorff dimension", "almgren", "regularity elliptic", "mingione"]),
   ("geometric",
    ["minimal surfaces", "minimal surface", "harmonic maps", "harmonic map", "geodesics",
     "geodesic", "curvature flow", "plateau problem", "area functional", "willmore",
     "mean curvature", "ricci flow", "varifold", "current", "rectifiable",
     "geometric measure", "area minimizing", "stationary varifold", "constant mean curvature"]),
   ("optimal_control",
    ["pontryagin", "bellman", "hamilton-jacobi", "hamilton jacobi", "viscosity solutions",
     "viscosity solution", "optimal control", "dynamic programming"]),
   ("convexity",
    ["quasiconvexity", "quasiconvex", "polyconvexity", "polyconvex", "rank-one convexity",
     "rank one convexity", "relaxation", "young measures", "young measure",
     "convex integration", "nonlinear elasticity", "martensitic", "shape memory", "laminates",
     "rank-one connection", "tartar conjecture", "morrey conjecture", "differential inclusion",
     "rigidity estimate"]),
   ("gamma_convergence",
    ["gamma-convergence", "gamma convergence", "homogenization", "thin structures",
     "dimension reduction", "asymptotic analysis", "energy scaling", "scaling law",
     "microstructure", "thin film", "epitaxial", "mosco convergence", "epi-convergence",
     "variational limit", "effective energy", "continuum limit", "discrete to continuum",
     "stochastic homogenization"]),
   ("optimal_transport",
    ["wasserstein", "monge-kantorovich", "monge kantorovich", "brenier",
     "displacement convexity", "optimal transport", "mass transport", "kantorovich",
     "gradient flow", "jko scheme", "benamou-brenier", "entropic regularization", "sinkhorn",
     "wasserstein gradient", "otto calculus"]),
   ("free_discontinuity",
    ["mumford-shah", "free discontinuity", "sbv", "special functions of bounded variation",
     "segmentation", "crack propagation", "fracture mechanics variational", "phase field",
     "ginzburg-landau", "allen-cahn", "cahn-hilliard", "sharp interface limit",
     "diffuse interface", "modica-mortola"])]

/-- Python `str.lower()` (ASCII range). -/
def pyLower (s : String) : String := ⟨s.data.map charLower⟩

def orS (o : Option String) : String := o.getD ""

def joinSpace (xs : List String) : String := String.intercalate " " xs

/-- First-occurrence deduplication (`set` construction order is irrelevant
here: only `len(set(xs))` is consumed). -/
def dedupFirst {α : Type} [DecidableEq α] (xs : List α) : List α :=
  xs.foldl (fun acc a => if a ∈ acc then acc else acc ++ [a]) []

/-- Embeds `f"{q:.1f}"` for the non-negative exact multiples of `0.1` produced by
the capped bonus formulas. -/
def fmt1 (q : ℚ) : String :=
  let m : ℤ := ⌊q * 10⌋
  toString (m / 10) ++ "." ++ toString (m % 10)

/-- A candidate record as scored (the dictionary shape produced by
`paper_from_openalex` / `merge_seed`). -/
structure CandidatePaper where
  title : Option String := none
  abstract_text : Option String := none
  concept_terms : List String := []
  keyword_terms : List String := []
  year : Option ℤ := none
  authors : List String := []
  cited_by_count : Option ℤ := none
deriving DecidableEq, Repr

/-- Embeds `score_paper(paper, known_researchers, min_year)`, returning
`(score, reasons, sorted(tags), matched_domains)`.  `known_researchers` is
the lower-cased trusted-author set. -/
def score_paper (paper : CandidatePaper) (known_researchers : List String)
    (min_year : ℤ) : ℚ × List String × List String × ℕ :=
  let title := pyLower (orS paper.title)
  let abstract := pyLower (orS paper.abstract_text)
  let concepts := joinSpace paper.concept_terms
  let keywords := joinSpace paper.keyword_terms
  let text := joinSpace [title, abstract, concepts, keywords]
  match paper.year with
  | none => (-999, ["below_min_year"], [], 0)
  | some year =>
  if year < min_year then (-999, ["below_min_year"], [], 0)
  else
    -- Core calculus of variations terms in title/abstract.
    let has_calcvar :=
      term_in_text "calculus of variations" text || term_in_text "variational method" text ||
      term_in_text "variational problem" text || term_in_text "euler-lagrange" text ||
      term_in_text "euler lagrange" text
    let s1 : ℚ × List String × List String :=
      if has_calcvar then (6, ["mentions_calcvar(+6)"], ["classical_calcvar"]) else (0, [], [])
    -- Additional core variational terms boost.
    let core_variational :=
      ["variational inequality", "variational formulation", "variational principle",
       "minimization problem", "energy functional", "functional minimization"]
    let core_matches := (core_variational.filter (fun t => term_in_text t text)).length
    let s2 :=
      if 0 < core_matches then
        let core_pts : ℚ := min 4 ((3 : ℚ) / 2 * core_matches)
        (s1.1 + core_pts, s1.2.1 ++ ["core_variational(+" ++ fmt1 core_pts ++ ")"],
          s1.2.2 ++ ["classical_calcvar"])
      else s1
    -- Domain-specific term matching.
    let domStep := fun (acc : ℚ × List String × List String × ℕ) (dt : String × List String) =>
      let hits := dt.2.filter (fun t => term_in_text t text)
      if hits ≠ [] then
        let domain_points : ℚ := min 3 ((4 : ℚ) / 5 * (dedupFirst hits).length)
        (acc.1 + domain_points,
          acc.2.1 ++ ["domain_" ++ dt.1 ++ "(+" ++ fmt1 domain_points ++ ")"],
          acc.2.2.1 ++ [dt.1], acc.2.2.2 + 1)
      else acc
    let s3 := DOMAIN_TERMS.foldl domStep (s2.1, s2.2.1, s2.2.2, 0)
    let matched_domains := s3.2.2.2
    -- Known researcher boost.
    let matched_authors := paper.authors.filter (fun a => decide (pyLower a ∈ known_researchers))
    let s4 :=
      if matched_authors ≠ [] then
        let author_points : ℚ := min 6 (2 * (dedupFirst matched_authors).length)
        (s3.1 + author_points, s3.2.1 ++ ["known_researcher(+" ++ fmt1 author_points ++ ")"],
          s3.2.2.1 ++ ["known-authors"])
      else (s3.1, s3.2.1, s3.2.2.1)
    -- Citation count boost.
    let cited_by := orZ paper.cited_by_count
    let s5 :=
      if 200 ≤ cited_by then (s4.1 + 2, s4.2.1 ++ ["high_citations_200(+2)"])
      else if 50 ≤ cited_by then (s4.1 + 1, s4.2.1 ++ ["citations_50(+1)"])
      else (s4.1, s4.2.1)
    -- Guardrail: generic math papers should still have clear calcvar relevance.
    let s6 :=
      if !has_calcvar && decide (matched_domains < 2) && decide (matched_authors = []) then
        (s5.1 - 4, s5.2 ++ ["weak_calcvar_signal(-4)"])
      else s5
    -- Small boost for landmark older papers (pre-1980) that are highly cited.
    let s7 :=
      if year ≠ 0 ∧ year < 1980 ∧ 100 ≤ cited_by then
        (s6.1 + (3 : ℚ) / 2, s6.2 ++ ["landmark_classic(+1.5)"])
      else s6
    (s7.1, s7.2, sortedUnion s4.2.2, matched_domains)

/-! ### analyze.py: threads, influence, graphs, layout -/

/-- Embeds `THREAD_META` (key, name, description), in definition order. -/
def THREAD_META : List (String × String × String) :=
  [("classical_calcvar", "Classical Methods",
    "Euler-Lagrange equations, necessary conditions, sufficient conditions, Hamilton\x27s principle, and classical variational techniques."),
   ("direct_methods", "Direct Methods",
    "Lower semicontinuity, coercivity, weak convergence in Sobolev spaces, existence theorems via minimization."),
   ("regularity", "Regularity Theory",
    "Regularity of minimizers, partial regularity, De Giorgi–Nash–Moser theory, Schauder estimates."),
   ("geometric", "Geometric Problems",
    "Minimal surfaces, harmonic maps, geodesics, curvature flows, Plateau problem, geometric measure theory."),
   ("optimal_control", "Optimal Control",
    "Pontryagin maximum principle, dynamic programming, Hamilton-Jacobi-Bellman equations, viscosity solutions."),
   ("convexity", "Convexity & Relaxation",
    "Quasiconvexity, polyconvexity, rank-one convexity, relaxation of variational problems, Young measures."),
   ("gamma_convergence", "Γ-Convergence",
    "Gamma-convergence, homogenization, dimension reduction, variational limits of sequences of functionals."),
   ("optimal_transport", "Optimal Transport",
    "Monge-Kantorovich problem, Wasserstein distances, Brenier\x27s theorem, displacement convexity, gradient flows."),
   ("free_discontinuity", "Free Discontinuity",
    "Mumford-Shah functional, SBV functions, phase field models, Ginzburg-Landau vortices, Allen-Cahn and Cahn-Hilliard equations, sharp and diffuse interface limits.")]

/-- Embeds `THREAD_ORDER = list(THREAD_META.keys())`. -/
def THREAD_ORDER : List String := THREAD_META.map Prod.fst

/-- Index of a key in a list (the enumeration index building
`THREAD_PRIORITY`); returns the length when absent. -/
def keyIdx (t : String) : List String → ℕ
  | [] => 0
  | s :: rest => if s = t then 0 else keyIdx t rest + 1

/-- Embeds `THREAD_PRIORITY[t]`. -/
def THREAD_PRIORITY (t : String) : ℕ := keyIdx t THREAD_ORDER

/-- Python `min(best :: rest, key=THREAD_PRIORITY)`: the first element of
minimal priority. -/
def minByPrio : String → List String → String
  | best, [] => best
  | best, t :: rest =>
    if THREAD_PRIORITY t < THREAD_PRIORITY best then minByPrio t rest else minByPrio best rest

/-- Embeds `assign_thread`: primary research thread from the paper's tags,
preferring specific subfields over the broad fallback. -/
def assign_thread (tags : List String) : String :=
  match tags with
  | [] => "classical_calcvar"
  | _ =>
    -- Filter to only recognized thread tags.
    let thread_tags := tags.filter (fun t => decide (t ∈ THREAD_ORDER))
    match thread_tags with
    | [] => "classical_calcvar"
    | _ =>
      -- Prefer specific subfields over classical_calcvar.
      let specific := thread_tags.filter (fun t => decide (t ≠ "classical_calcvar"))
      match specific with
      | s :: rest => minByPrio s rest
      | [] => "classical_calcvar"

/-- One record of `papers-db.json` as consumed by `analyze.py`. -/
structure APaper where
  id : String := ""
  title : String := ""
  year : Option ℤ := none
  authors : List String := []
  tags : List String := []
  cited_by_count : Option ℤ := none
  relevance_score : Option ℝ := none
  referenced_works : List String := []
  openalex_id : Option String := none
  aliases : List String := []
  doi : Option String := none
  arxiv_id : Option String := none
  url : Option String := none
  venue : Option String := none

def orR (o : Option ℝ) : ℝ := o.getD 0

/-- Embeds `math.log1p`. -/
noncomputable def log1p (x : ℝ) : ℝ := Real.log (1 + x)

/-- Python `round` to an integer: round half to even. -/
def pyRoundInt {α : Type} [LinearOrderedField α] [FloorRing α] (m : α) : ℤ :=
  if m - (⌊m⌋ : α) < 1 / 2 then ⌊m⌋
  else if 1 / 2 < m - (⌊m⌋ : α) then ⌊m⌋ + 1
  else if Even ⌊m⌋ then ⌊m⌋ else ⌊m⌋ + 1

/-- Python `round(x, d)` with `scale = 10^d`. -/
def pyRoundTo {α : Type} [LinearOrderedField α] [FloorRing α] (x scale : α) : α :=
  (pyRoundInt (x * scale) : ℤ) / scale

/-- Embeds `compute_influence`: 40% log-scaled citations, 30% relevance, 20%
log-scaled in-corpus citations, 10% recency, rounded to 4 decimals. -/
noncomputable def compute_influence (paper : APaper) (in_corpus_citations : String → ℕ)
    (max_citations : ℤ) (max_relevance : ℝ) : ℝ :=
  let cited : ℝ := ((orZ paper.cited_by_count : ℤ) : ℝ)
  let relevance := orR paper.relevance_score
  let in_corpus : ℝ := (in_corpus_citations paper.id : ℕ)
  let year : ℤ := (truthyInt paper.year).getD 1950
  -- Normalize citation count (log scale).
  let cite_norm := log1p cited / log1p ((max max_citations 1 : ℤ) : ℝ)
  -- Normalize relevance.
  let rel_norm := relevance / max max_relevance 1
  -- In-corpus citation (log scale, cap at reasonable value).
  let in_corpus_norm := min (log1p in_corpus / log1p 50) 1
  -- Recency bonus (papers from the last decades).
  let current_year : ℤ := 2025
  let recency := max 0 (min 1 (((year : ℝ) - ((current_year : ℝ) - 30)) / 30))
  pyRoundTo (0.4 * cite_norm + 0.3 * rel_norm + 0.2 * in_corpus_norm + 0.1 * recency) 10000

/-- Embeds `max((p.get("cited_by_count") or 0) for p in papers) if papers else 1`. -/
def maxCited (papers : List APaper) : ℤ :=
  match papers.map (fun p => orZ p.cited_by_count) with
  | [] => 1
  | x :: xs => xs.foldl max x

/-- Embeds `max((p.get("relevance_score") or 0) for p in papers) if papers else 1.0`. -/
noncomputable def maxRel (papers : List APaper) : ℝ :=
  match papers.map (fun p => orR p.relevance_score) with
  | [] => 1
  | x :: xs => xs.foldl max x

/-- Python dict assignment: an existing key keeps its position, a fresh
key is appended. -/
def dictSet {β : Type} (l : List (String × β)) (k : String) (v : β) : List (String × β) :=
  match l with
  | [] => [(k, v)]
  | (k', v') :: rest => if k' = k then (k', v) :: rest else (k', v') :: dictSet rest k v

/-- Python `dict.get`. -/
def dictGet {β : Type} (l : List (String × β)) (k : String) : Option β :=
  match l with
  | [] => none
  | (k', v) :: rest => if k' = k then some v else dictGet rest k

/-- Embeds `str.replace(pat, "")`: remove every occurrence of `pat`. -/
def removeAll (pat : List Char) : List Char → List Char
  | [] => []
  | c :: rest =>
    if h : pat ≠ [] ∧ startsWithChars pat (c :: rest) then
      removeAll pat ((c :: rest).drop pat.length)
    else c :: removeAll pat rest
termination_by cs => cs.length
decreasing_by
  · simp only [List.length_drop, List.length_cons]
    have hp : 1 ≤ pat.length := by
      cases pat with
      | nil => exact absurd rfl h.1
      | cons a t => simp
    omega
  · simp

/-- The OpenAlex-id → paper-id lookup table built at the start of
`analyze.main`, including alias-derived short forms. -/
def oaMapStep (m : List (String × String)) (p : APaper) : List (String × String) :=
  let m1 :=
    match truthy p.openalex_id with
    | some oa =>
      let m' :=
        match short_openalex_id (some oa) with
        | some short => if short ≠ "" then dictSet m short p.id else m
        | none => m
      dictSet m' oa p.id
    | none => m
  p.aliases.foldl
    (fun acc al =>
      if startsWithChars "openalex:".data al.data then
        match short_openalex_id (some (String.mk (removeAll "openalex:".data al.data))) with
        | some oa_short => if oa_short ≠ "" then dictSet acc oa_short p.id else acc
        | none => acc
      else acc)
    m1

def oaMap (papers : List APaper) : List (String × String) := papers.foldl oaMapStep []

/-- A directed citation edge (`{"source": ..., "target": ...}`). -/
structure CitationEdge where
  source : String
  target : String
deriving DecidableEq, Repr

/-- Embeds `build_citation_graph`: citation edges between papers in the corpus. -/
def build_citation_graph (papers : List APaper)
    (oa_id_to_paper_id : String → Option String) : List CitationEdge :=
  let paper_ids := papers.map (fun p => p.id)
  papers.flatMap (fun paper =>
    paper.referenced_works.filterMap (fun ref_oa =>
      match oa_id_to_paper_id ref_oa with
      | some target_id =>
        if target_id ≠ "" ∧ target_id ∈ paper_ids ∧ target_id ≠ paper.id then
          some ⟨paper.id, target_id⟩
        else none
      | none => none))

/-- The (citing, cited) pairs counted for in-corpus citations (same
resolution and filtering as the citation graph, in input order). -/
def inCorpusPairs (papers : List APaper) (lookup : String → Option String) :
    List (String × String) :=
  let paper_ids := papers.map (fun p => p.id)
  papers.flatMap (fun paper =>
    paper.referenced_works.filterMap (fun ref_oa =>
      match lookup ref_oa with
      | some t =>
        if t ≠ "" ∧ t ∈ paper_ids ∧ t ≠ paper.id then some (paper.id, t) else none
      | none => none))

/-- Embeds `in_corpus_citations[pid]` (a `Counter`, so absent keys count 0). -/
def in_corpus_citations (papers : List APaper) (lookup : String → Option String)
    (pid : String) : ℕ :=
  (inCorpusPairs papers lookup).countP (fun pr => decide (pr.2 = pid))

/-- Embeds `in_corpus_refs.get(pid, [])`. -/
def in_corpus_refs (papers : List APaper) (lookup : String → Option String)
    (pid : String) : List String :=
  (inCorpusPairs papers lookup).filterMap (fun pr => if pr.1 = pid then some pr.2 else none)

/-- A paper annotated with its `_thread` and `_influence` entries. -/
structure AnnPaper where
  paper : APaper
  thread : String
  influence : ℝ

/-- Embeds `thread_y.get(t, 0)` where
`thread_y = {t: i * 100 for i, t in enumerate(thread_order)}`. -/
def threadY (thread_order : List String) (t : String) : ℤ :=
  if t ∈ thread_order then (keyIdx t thread_order : ℤ) * 100 else 0

/-- Embeds `compute_warm_positions`: deterministic initial x/y coordinates for the
network view, parameterized by the process's string-hash function
(Python's built-in `hash`).  The caller never passes an empty list (Python
`min` would raise there). -/
def compute_warm_positions (hashFn : String → ℤ) (papers : List AnnPaper)
    (thread_order : List String) : List (String × ℚ × ℚ) :=
  match papers.map (fun a => (truthyInt a.paper.year).getD 2000) with
  | [] => []
  | y0 :: ys =>
    let year_min := ys.foldl min y0
    let year_max := listMax y0 ys
    let year_range := max (year_max - year_min) 1
    papers.foldl
      (fun pos a =>
        let year := (truthyInt a.paper.year).getD 2000
        let x : ℚ := ((year - year_min : ℤ) : ℚ) / (year_range : ℚ) * 800 - 400
        let y : ℚ := ((threadY thread_order a.thread + (hashFn a.paper.id % 60 - 30) : ℤ) : ℚ)
        dictSet pos a.paper.id (pyRoundTo x 10, pyRoundTo y 10))
      []

/-- First-occurrence-ordered counting (`collections.Counter` items). -/
def tally {α : Type} [DecidableEq α] (xs : List α) : List (α × ℕ) :=
  (dedupFirst xs).map (fun a => (a, xs.count a))

/-- Embeds `Counter.most_common()`: stable sort by descending count. -/
def mostCommon {α : Type} (items : List (α × ℕ)) : List (α × ℕ) :=
  items.mergeSort (fun x y => decide (y.2 ≤ x.2))

/-- Embeds `tuple(sorted([a, b]))`. -/
def sortPair (a b : String) : String × String := if strLt b a then (b, a) else (a, b)

/-- All unordered author pairs of one paper, in double-loop order. -/
def allPairs : List String → List (String × String)
  | [] => []
  | a :: rest => rest.map (fun b => sortPair a b) ++ allPairs rest

/-- Lower-cased, underscore-joined author node id. -/
def authorNodeId (author : String) : String :=
  ⟨(pyLower author).data.map (fun c => if c = ' ' then '_' else c)⟩

structure CoauthorNode where
  id : String
  author : String
  inf : ℝ

structure CoauthorEdge where
  source : String
  target : String
  weight : ℕ
deriving DecidableEq, Repr

/-- Embeds `build_coauthor_network`: author collaboration graph; nodes only for
authors with positive cumulative influence, edges only between nodes. -/
noncomputable def build_coauthor_network (papers : List AnnPaper)
    (author_influence : String → ℝ) : List CoauthorNode × List CoauthorEdge :=
  let coauthor_weights := tally (papers.flatMap (fun p => allPairs p.paper.authors))
  let author_set := papers.flatMap (fun p => p.paper.authors)
  let nodes := (sortedUnion author_set).filterMap (fun author =>
    let inf := author_influence author
    if 0 < inf then some (CoauthorNode.mk (authorNodeId author) author (pyRoundTo inf 10000))
    else none)
  let node_ids := nodes.map (fun n => (n.author, n.id))
  let edges := (mostCommon coauthor_weights).filterMap (fun pw =>
    match dictGet node_ids pw.1.1, dictGet node_ids pw.1.2 with
    | some s, some t => if 1 ≤ pw.2 then some (CoauthorEdge.mk s t pw.2) else none
    | _, _ => none)
  (nodes, edges)

/-! ### analyze.py: main views -/

/-- Embeds `range(a, b + 1)` over integers. -/
def intRange (a b : ℤ) : List ℤ := (List.range (b - a + 1).toNat).map (fun i => a + (i : ℤ))

/-- Python `max(items, key=count)` over counter items: the first key of
maximal count in insertion order. -/
def argmaxFirst (items : List (ℤ × ℕ)) : Option ℤ :=
  match items with
  | [] => none
  | kv :: rest => some (rest.foldl (fun best x => if best.2 < x.2 then x else best) kv).1

/-- Per-thread aggregate statistics (`thread_stats[tid]`). -/
structure ThreadStat where
  n : String
  d : String
  tc : ℕ
  yc : List (ℤ × ℕ)
  py : Option ℤ
  ac : ℕ
  ka : List (String × ℕ)
  tops : List String

/-- Per-author aggregate statistics (`authors_data[author]`). -/
structure AuthorStat where
  u : String
  pc : ℕ
  inf : ℝ
  cc : ℤ
  yrs : List ℤ
  ths : List (String × ℕ)
  tops : List String
  co : List (String × ℕ)

/-- Sorted distinct integers (`sorted(set(xs))`). -/
def insertUniqueInt (a : ℤ) : List ℤ → List ℤ
  | [] => [a]
  | b :: t =>
    if a = b then b :: t
    else if a < b then a :: b :: t
    else b :: insertUniqueInt a t

def sortedIntUnion (xs : List ℤ) : List ℤ := xs.foldr insertUniqueInt []

/-- One `thread_stats` entry over the influence-sorted paper list. -/
noncomputable def threadStatFor (sortedPapers : List AnnPaper) (tid meta_n meta_d : String) :
    ThreadStat :=
  let thread_papers := sortedPapers.filter (fun a => decide (a.thread = tid))
  let years := thread_papers.filterMap (fun a => truthyInt a.paper.year)
  let yearly := tally years
  let year_min := match yearly.map Prod.fst with | [] => (1950 : ℤ) | y :: ys => ys.foldl min y
  let year_max := match yearly.map Prod.fst with | [] => (2025 : ℤ) | y :: ys => listMax y ys
  let yc := (intRange year_min year_max).map (fun y => (y, years.count y))
  let author_counts := tally (thread_papers.flatMap (fun a => a.paper.authors))
  let thread_top := thread_papers.mergeSort (fun a b => decide (b.influence ≤ a.influence))
  { n := meta_n, d := meta_d, tc := thread_papers.length, yc := yc,
    py := argmaxFirst yearly, ac := author_counts.length,
    ka := (mostCommon author_counts).take 15,
    tops := (thread_top.take 15).map (fun a => a.paper.id) }

/-- One `authors_data` entry over the influence-sorted paper list. -/
noncomputable def authorStatFor (sortedPapers : List AnnPaper) (author : String) : AuthorStat :=
  let my_papers := sortedPapers.filter (fun a => decide (author ∈ a.paper.authors))
  { u := author,
    pc := my_papers.length,
    inf := pyRoundTo (my_papers.foldl (fun s a => s + a.influence) 0) 10000,
    cc := my_papers.foldl (fun s a => s + orZ a.paper.cited_by_count) 0,
    yrs := sortedIntUnion (my_papers.filterMap (fun a => truthyInt a.paper.year)),
    ths := tally (my_papers.map (fun a => a.thread)),
    tops := ((my_papers.take 10).map (fun a => a.paper.id)),
    co := (mostCommon (tally (my_papers.flatMap
      (fun a => a.paper.authors.filter (fun c => decide (c ≠ author)))))).take 20 }

/-- Embeds `author_influence[author]`: cumulative influence of the author's
papers. -/
noncomputable def authorInfluenceFn (sortedPapers : List AnnPaper) : String → ℝ :=
  fun author =>
    (sortedPapers.filter (fun a => decide (author ∈ a.paper.authors))).foldl
      (fun s a => s + a.influence) 0

/-- One compact `core.json` paper entry. -/
structure CorePaperEntry where
  id : String
  t : String
  a : List String
  d : String
  inf : ℝ
  th : String
  cc : ℤ
  ref : List String
  tags : List String
  icc : ℕ

def corePaperEntry (icc : String → ℕ) (iref : String → List String) (a : AnnPaper) :
    CorePaperEntry :=
  { id := a.paper.id, t := a.paper.title, a := a.paper.authors.take 10,
    d := (match truthyInt a.paper.year with
      | some y => toString y ++ "-01-01"
      | none => "2000-01-01"),
    inf := a.influence, th := a.thread, cc := orZ a.paper.cited_by_count,
    ref := iref a.paper.id, tags := a.paper.tags, icc := icc a.paper.id }

/-- One `papers.json` entry. -/
structure PaperIndexEntry where
  id : String
  t : String
  a : List String
  y : Option ℤ
  c : ℤ
  inf : ℝ
  rel : ℝ
  th : String
  tags : List String
  doi : Option String
  arxiv_id : Option String
  url : Option String
  venue : Option String

def paperIndexEntry (a : AnnPaper) : PaperIndexEntry :=
  { id := a.paper.id, t := a.paper.title, a := a.paper.authors.take 10, y := a.paper.year,
    c := orZ a.paper.cited_by_count, inf := a.influence, rel := orR a.paper.relevance_score,
    th := a.thread, tags := a.paper.tags, doi := a.paper.doi, arxiv_id := a.paper.arxiv_id,
    url := a.paper.url, venue := a.paper.venue }

/-- One `graph.json` node, with warm layout coordinates. -/
structure GraphNode where
  id : String
  t : String
  inf : ℝ
  th : String
  x : ℚ
  y : ℚ

structure TypedEdge where
  source : String
  target : String
deriving DecidableEq, Repr

/-- The `core.json` view (metadata counts, thread and author aggregates,
top-N compact papers and their reduced subgraph). -/
structure CoreView where
  total_papers : ℕ
  top_papers : ℕ
  citation_edges : ℕ
  authors_count : ℕ
  threads : List (String × ThreadStat)
  authors : List (String × AuthorStat)
  papers : List (String × CorePaperEntry)
  graph_nodes : List String
  graph_edges : List CitationEdge

structure GraphView where
  nodes : List GraphNode
  edges : List TypedEdge

/-- The four output views written by `analyze.main` (the `generated_at`
wall-clock stamps belong to the excluded IO collaborator). -/
structure MainOutputs where
  core : CoreView
  papersView : List (String × PaperIndexEntry)
  graphView : GraphView
  coauthorNodes : List CoauthorNode
  coauthorEdges : List CoauthorEdge

/-- Embeds `analyze.main` after loading: on an empty paper list it prints and
returns without producing any view; otherwise it assigns threads, computes
in-corpus citations, influence, the global influence sort, and the four
views.  `hashFn` is the process's string hash, `topN` the `--top-papers`
argument. -/
noncomputable def analyze_main (hashFn : String → ℤ) (topN : ℕ) (papers : List APaper) :
    Option MainOutputs :=
  match papers with
  | [] => none
  | _ :: _ =>
    let oam := oaMap papers
    let lookup := fun r => dictGet oam r
    let icc := in_corpus_citations papers lookup
    let iref := in_corpus_refs papers lookup
    let maxC := maxCited papers
    let maxR := maxRel papers
    let ann := papers.map (fun p =>
      AnnPaper.mk p (assign_thread p.tags) (compute_influence p icc maxC maxR))
    let sortedAnn := ann.mergeSort (fun a b => decide (b.influence ≤ a.influence))
    let citation_edges := build_citation_graph (sortedAnn.map (fun a => a.paper)) lookup
    let threads := THREAD_META.map (fun m => (m.1, threadStatFor sortedAnn m.1 m.2.1 m.2.2))
    let authorsSorted := sortedUnion (sortedAnn.flatMap (fun a => a.paper.authors))
    let authors := authorsSorted.map (fun au => (au, authorStatFor sortedAnn au))
    let top := sortedAnn.take topN
    let core_papers := top.foldl (fun acc a => dictSet acc a.paper.id (corePaperEntry icc iref a)) []
    let top_ids := core_papers.map Prod.fst
    let core_graph_edges := citation_edges.filter
      (fun e => decide (e.source ∈ top_ids) && decide (e.target ∈ top_ids))
    let coreView : CoreView :=
      { total_papers := sortedAnn.length, top_papers := core_papers.length,
        citation_edges := core_graph_edges.length, authors_count := authors.length,
        threads := threads, authors := authors, papers := core_papers,
        graph_nodes := top_ids, graph_edges := core_graph_edges }
    let papersView := sortedAnn.foldl (fun acc a => dictSet acc a.paper.id (paperIndexEntry a)) []
    let warm := compute_warm_positions hashFn (sortedAnn.take 600) THREAD_ORDER
    let graph_nodes : List GraphNode := (sortedAnn.take 600).map (fun a =>
      let wxy := (dictGet warm a.paper.id).getD (0, 0)
      GraphNode.mk a.paper.id a.paper.title a.influence a.thread wxy.1 wxy.2)
    let gids : List String := graph_nodes.map (fun n => n.id)
    let graph_edges := (citation_edges.filter
      (fun e => decide (e.source ∈ gids) && decide (e.target ∈ gids))).map
      (fun e => TypedEdge.mk e.source e.target)
    let coa := build_coauthor_network sortedAnn (authorInfluenceFn sortedAnn)
    some { core := coreView, papersView := papersView,
           graphView := { nodes := graph_nodes, edges := graph_edges },
           coauthorNodes := coa.1, coauthorEdges := coa.2 }

/-! ### Concrete records for the claim instances -/

/-- A raw single-occurrence record whose author list is not sorted: it
passes through `dedupe_accepted_papers` untouched. -/
def rowUnsorted : PaperRow :=
  { id := "title:a:2020", title := "a", year := some 2020, authors := ["b", "a"],
    cited_by_count := some 5, ss_cited_by_count := some 0, relevance_score := some 1 }

/-- The same record in merge-normal form (authors sorted). -/
def rowNormal : PaperRow :=
  { id := "title:a:2020", title := "a", year := some 2020, authors := ["a", "b"],
    cited_by_count := some 5, ss_cited_by_count := some 0, relevance_score := some 1 }

/-- Two same-title records with equal (absent) relevance scores and
distinct published DOIs. -/
def rowDoiA : PaperRow :=
  { id := "doi:10.1/a", title := "t", year := some 2020, doi := some "10.1/a" }

def rowDoiB : PaperRow :=
  { id := "doi:10.1/b", title := "t", year := some 2020, doi := some "10.1/b" }

/-- Scenario A, DOI record. -/
def c3r1 : PaperRow :=
  { id := "doi:10.1000/x", title := "Euler-Lagrange Equations in Elasticity",
    year := some 2020, doi := some "10.1000/x", cited_by_count := some 5 }

/-- Scenario A, preprint record. -/
def c3r2 : PaperRow :=
  { id := "arxiv:2001.00001", title := "Euler-Lagrange Equations in Elasticity",
    year := some 2019, arxiv_id := some "2001.00001", cited_by_count := some 50 }

/-- The canonical record produced by deduplicating scenario A. -/
def c3merged : PaperRow :=
  { id := "doi:10.1000/x", title := "Euler-Lagrange Equations in Elasticity",
    year := some 2020, doi := some "10.1000/x", arxiv_id := some "2001.00001",
    cited_by_count := some 50, ss_cited_by_count := some 0, relevance_score := some 0,
    aliases := ["arxiv:2001.00001"] }

/-- A record whose canonical id is its DOI id. -/
def c4existing : PaperRow := { id := "doi:10.1/a", title := "t", doi := some "10.1/a" }

/-- A record with a surviving alias (for the alias-invariant instance). -/
def rowWithAlias : PaperRow :=
  { id := "doi:10.2/z", title := "z", doi := some "10.2/z",
    aliases := ["arxiv:0001.0001"] }

/-- A record carrying the other record's id among its aliases. -/
def c4incoming : PaperRow :=
  { id := "arxiv:1234.5678", title := "t", arxiv_id := some "1234.5678",
    aliases := ["doi:10.1/a"] }

/-- A one-paper corpus for the influence bound instance. -/
def apInfl : APaper :=
  { id := "doi:10.1/x", title := "x", year := some 2020, cited_by_count := some 5,
    relevance_score := some 1 }

/-- A two-paper corpus with one resolvable reference. -/
def apciteA : APaper := { id := "A", title := "a", referenced_works := ["W2"] }

def apciteB : APaper := { id := "B", title := "b" }

/-- One positioned paper for the layout claims. -/
def annWarm : AnnPaper :=
  { paper := { id := "doi:10.1000/x", title := "x", year := some 2020 },
    thread := "classical_calcvar", influence := 0 }

/-- A candidate record with a missing year and otherwise strong fields. -/
def candNoYear : CandidatePaper :=
  { title := some "Calculus of variations and Euler-Lagrange equations",
    abstract_text := some "an energy functional minimization problem",
    authors := ["Ennio De Giorgi"], cited_by_count := some 1000 }

/-! ### Order lemmas for the string comparison -/

theorem lexLt_irrefl (l : List Char) : lexLt l l = false := by
  induction l with
  | nil => rfl
  | cons c t ih => simp [lexLt, ih]

theorem lexLt_asymm : ∀ {a b : List Char}, lexLt a b = true → lexLt b a = false
  | [], [], h => by simp [lexLt] at h
  | [], _ :: _, _ => by simp [lexLt]
  | _ :: _, [], h => by simp [lexLt] at h
  | c :: cs, d :: ds, h => by
    unfold lexLt at h ⊢
    by_cases h1 : c.val.toNat < d.val.toNat
    · have h2 : ¬ d.val.toNat < c.val.toNat := by omega
      simp [h1, h2]
    · by_cases h2 : d.val.toNat < c.val.toNat
      · simp [h1, h2] at h
      · simp only [if_neg h1, if_neg h2] at h ⊢
        exact lexLt_asymm h

theorem lexLt_eq_of_not : ∀ {a b : List Char},
    lexLt a b = false → lexLt b a = false → a = b
  | [], [], _, _ => rfl
  | [], _ :: _, h, _ => by simp [lexLt] at h
  | _ :: _, [], _, h' => by simp [lexLt] at h'
  | c :: cs, d :: ds, h, h' => by
    unfold lexLt at h h'
    by_cases h1 : c.val.toNat < d.val.toNat
    · simp [h1] at h
    · by_cases h2 : d.val.toNat < c.val.toNat
      · simp [h2] at h'
      · have hcd : c = d := Char.ext (UInt32.ext (by omega))
        have htl : cs = ds :=
          lexLt_eq_of_not (by simpa [h1, h2] using h) (by simpa [h1, h2] using h')
        rw [hcd, htl]

theorem lexLt_trans : ∀ {a b c : List Char},
    lexLt a b = true → lexLt b c = true → lexLt a c = true
  | [], [], _, h1, _ => by simp [lexLt] at h1
  | [], _ :: _, [], _, h2 => by simp [lexLt] at h2
  | [], _ :: _, _ :: _, _, _ => by simp [lexLt]
  | _ :: _, [], _, h1, _ => by simp [lexLt] at h1
  | _ :: _, _ :: _, [], _, h2 => by simp [lexLt] at h2
  | x :: xs, y :: ys, z :: zs, h1, h2 => by
    unfold lexLt at h1 h2 ⊢
    by_cases hxy : x.val.toNat < y.val.toNat
    · by_cases hyz : y.val.toNat < z.val.toNat
      · simp [show x.val.toNat < z.val.toNat by omega]
      · by_cases hzy : z.val.toNat < y.val.toNat
        · simp [hyz, hzy] at h2
        · simp [show x.val.toNat < z.val.toNat by omega]
    · by_cases hyx : y.val.toNat < x.val.toNat
      · simp [hxy, hyx] at h1
      · by_cases hyz : y.val.toNat < z.val.toNat
        · simp [show x.val.toNat < z.val.toNat by omega]
        · by_cases hzy : z.val.toNat < y.val.toNat
          · simp [hyz, hzy] at h2
          · have hx : ¬ x.val.toNat < z.val.toNat := by omega
            have hz : ¬ z.val.toNat < x.val.toNat := by omega
            simp only [if_neg hx, if_neg hz]
            exact lexLt_trans (by simpa [hxy, hyx] using h1) (by simpa [hyz, hzy] using h2)

theorem strLt_irrefl (s : String) : strLt s s = false := lexLt_irrefl _

theorem strLt_asymm {a b : String} (h : strLt a b = true) : strLt b a = false :=
  lexLt_asymm h

theorem strLt_eq_of_not {a b : String} (h : strLt a b = false) (h' : strLt b a = false) :
    a = b := by
  have hd := lexLt_eq_of_not h h'
  cases a
  cases b
  exact congrArg String.mk hd

theorem strLt_trans {a b c : String} (h1 : strLt a b = true) (h2 : strLt b c = true) :
    strLt a c = true :=
  lexLt_trans h1 h2

theorem strLt_ne {a b : String} (h : strLt a b = true) : a ≠ b := by
  intro he
  rw [he] at h
  rw [strLt_irrefl] at h
  exact Bool.false_ne_true h

/-! ### Lemmas about `insertUnique`, `sortedUnion`, `sortedStrB` -/

theorem and_true_split {a b : Bool} (h : (a && b) = true) : a = true ∧ b = true := by
  simp only [Bool.and_eq_true] at h
  exact h

theorem insertUnique_eq_of_eq {a b : String} {t : List String} (h : a = b) :
    insertUnique a (b :: t) = b :: t := by
  show (if a = b then b :: t
    else if strLt a b = true then a :: b :: t else b :: insertUnique a t) = b :: t
  rw [if_pos h]

theorem insertUnique_eq_of_lt {a b : String} {t : List String} (h : strLt a b = true) :
    insertUnique a (b :: t) = a :: b :: t := by
  show (if a = b then b :: t
    else if strLt a b = true then a :: b :: t else b :: insertUnique a t) = a :: b :: t
  rw [if_neg (strLt_ne h), if_pos h]

theorem insertUnique_eq_of_skip {a b : String} {t : List String} (h1 : a ≠ b)
    (h2 : strLt a b = false) : insertUnique a (b :: t) = b :: insertUnique a t := by
  show (if a = b then b :: t
    else if strLt a b = true then a :: b :: t else b :: insertUnique a t)
    = b :: insertUnique a t
  rw [if_neg h1, h2]
  simp

theorem mem_insertUnique {x a : String} {l : List String} :
    x ∈ insertUnique a l ↔ x = a ∨ x ∈ l := by
  induction l with
  | nil => simp [insertUnique]
  | cons b t ih =>
    by_cases hab : a = b
    · rw [insertUnique_eq_of_eq hab]
      subst hab
      simp only [List.mem_cons]
      tauto
    · rcases Bool.eq_false_or_eq_true (strLt a b) with hsl | hsl
      · rw [insertUnique_eq_of_lt hsl]
        simp only [List.mem_cons]
      · rw [insertUnique_eq_of_skip hab hsl]
        simp only [List.mem_cons, ih]
        tauto

theorem mem_sortedUnion {x : String} : ∀ {xs : List String},
    x ∈ sortedUnion xs ↔ x ∈ xs
  | [] => by simp [sortedUnion]
  | a :: t => by
    show x ∈ insertUnique a (sortedUnion t) ↔ _
    rw [mem_insertUnique, mem_sortedUnion]
    simp

theorem sortedStrB_tail : ∀ {b : String} {t : List String},
    sortedStrB (b :: t) = true → sortedStrB t = true
  | _, [], _ => rfl
  | _, _ :: _, h => by
    unfold sortedStrB at h
    exact (and_true_split h).2

theorem sortedStrB_head_lt : ∀ {b : String} {t : List String},
    sortedStrB (b :: t) = true → ∀ a ∈ t, strLt b a = true
  | _, [], _ => by intro a ha; cases ha
  | b, c :: t', h => by
    intro a ha
    unfold sortedStrB at h
    have hbc := (and_true_split h).1
    have hrest := (and_true_split h).2
    rcases List.mem_cons.mp ha with rfl | hat
    · exact hbc
    · exact strLt_trans hbc (sortedStrB_head_lt hrest a hat)

theorem insertUnique_of_mem {a : String} : ∀ {l : List String},
    sortedStrB l = true → a ∈ l → insertUnique a l = l
  | [], _, ha => by cases ha
  | b :: t, hs, ha => by
    by_cases hab : a = b
    · exact insertUnique_eq_of_eq hab
    · have hat : a ∈ t := by
        rcases List.mem_cons.mp ha with rfl | h
        · exact absurd rfl hab
        · exact h
      have hba : strLt b a = true := sortedStrB_head_lt hs a hat
      rw [insertUnique_eq_of_skip hab (strLt_asymm hba)]
      rw [insertUnique_of_mem (sortedStrB_tail hs) hat]

theorem foldr_insertUnique_fixed : ∀ {m l : List String},
    sortedStrB l = true → (∀ a ∈ m, a ∈ l) → m.foldr insertUnique l = l
  | [], _, _, _ => rfl
  | x :: m', l, hs, hm => by
    show insertUnique x (m'.foldr insertUnique l) = l
    rw [foldr_insertUnique_fixed hs (fun a ha => hm a (List.mem_cons_of_mem _ ha))]
    exact insertUnique_of_mem hs (hm x (List.mem_cons_self _ _))

theorem sortedUnion_eq_self : ∀ {l : List String}, sortedStrB l = true → sortedUnion l = l
  | [], _ => rfl
  | [a], _ => rfl
  | a :: b :: t, h => by
    have hab := (and_true_split h).1
    have ht := (and_true_split h).2
    show insertUnique a (sortedUnion (b :: t)) = a :: b :: t
    rw [sortedUnion_eq_self ht, insertUnique_eq_of_lt hab]

theorem sortedUnion_append_self {l : List String} (h : sortedStrB l = true) :
    sortedUnion (l ++ l) = l := by
  rw [sortedUnion, List.foldr_append]
  rw [show List.foldr insertUnique [] l = sortedUnion l from rfl, sortedUnion_eq_self h]
  exact foldr_insertUnique_fixed h (fun a ha => ha)

/-! ### `merge_paper_rows` applied to one record twice -/

theorem truthy_eq_some {o : Option String} {d : String} (h : truthy o = some d) :
    o = some d := by
  cases o with
  | none => simp [truthy] at h
  | some s =>
    have hrw : truthy (some s) = if s = "" then none else some s := rfl
    rw [hrw] at h
    by_cases hs : s = ""
    · rw [if_pos hs] at h
      cases h
    · rw [if_neg hs] at h
      exact h

theorem truthyInt_eq_some {o : Option ℤ} {y : ℤ} (h : truthyInt o = some y) :
    o = some y := by
  cases o with
  | none => simp [truthyInt] at h
  | some z =>
    have hrw : truthyInt (some z) = if z = 0 then none else some z := rfl
    rw [hrw] at h
    by_cases hz : z = 0
    · rw [if_pos hz] at h
      cases h
    · rw [if_neg hz] at h
      exact h

theorem filter_ne_self {l : List String} {x : String} (h1 : "" ∉ l) (h2 : x ∉ l) :
    l.filter (fun a => decide (a ≠ "") && decide (a ≠ x)) = l :=
  List.filter_eq_self.mpr (fun a ha => by
    have he : a ≠ "" := fun hc => h1 (hc ▸ ha)
    have hx : a ≠ x := fun hc => h2 (hc ▸ ha)
    simp [he, hx])

theorem mergeBase_self {r : PaperRow} (hs : sortedStrB r.aliases = true)
    (he : "" ∉ r.aliases) (hid : r.id ∉ r.aliases) : mergeBase r r = r := by
  unfold mergeBase
  rw [if_neg (lt_irrefl _)]
  show { r with aliases := sortedUnion (((r.aliases ++ [r.id]) ++ r.aliases).filter
    (fun a => decide (a ≠ "") && decide (a ≠ r.id))) } = r
  have hfil : ((r.aliases ++ [r.id]) ++ r.aliases).filter
      (fun a => decide (a ≠ "") && decide (a ≠ r.id)) = r.aliases ++ r.aliases := by
    rw [List.filter_append, List.filter_append, filter_ne_self he hid]
    simp
  rw [hfil, sortedUnion_append_self hs]

theorem mergeCounts_self {r : PaperRow} (hc : r.cited_by_count.isSome = true)
    (hss : r.ss_cited_by_count.isSome = true) (hrl : r.relevance_score.isSome = true) :
    mergeCounts r r = r := by
  rcases hc' : r.cited_by_count with _ | n
  · rw [hc'] at hc
    cases hc
  rcases hss' : r.ss_cited_by_count with _ | m
  · rw [hss'] at hss
    cases hss
  rcases hrl' : r.relevance_score with _ | q
  · rw [hrl'] at hrl
    cases hrl
  unfold mergeCounts
  rw [hc', hss', hrl']
  simp only [orZ, orQ, Option.getD_some, max_self]
  rw [← hc', ← hss', ← hrl']

theorem mergeRefs_self {r : PaperRow} : mergeRefs r r = r := by
  unfold mergeRefs
  rw [if_neg (lt_irrefl _)]

theorem unionField_self {l : List String} (hs : sortedStrB l = true) (he : "" ∉ l) :
    unionField l l = l := by
  unfold unionField
  have hfil : (l ++ l).filter (fun v => decide (v ≠ "")) = l ++ l :=
    List.filter_eq_self.mpr (fun a ha => by
      have : a ≠ "" := fun hc => he (hc ▸ (List.mem_append.mp ha).elim id id)
      simp [this])
  rw [hfil, sortedUnion_append_self hs]

theorem mergeSets_self {r : PaperRow}
    (hsA : sortedStrB r.authors = true) (heA : "" ∉ r.authors)
    (hsT : sortedStrB r.tags = true) (heT : "" ∉ r.tags)
    (hsR : sortedStrB r.relevance_reasons = true) (heR : "" ∉ r.relevance_reasons)
    (hsQ : sortedStrB r.matched_queries = true) (heQ : "" ∉ r.matched_queries)
    (hsS : sortedStrB r.source_types = true) (heS : "" ∉ r.source_types) :
    mergeSets r r = r := by
  unfold mergeSets
  rw [unionField_self hsA heA, unionField_self hsT heT, unionField_self hsR heR,
    unionField_self hsQ heQ, unionField_self hsS heS]

theorem mergeDoi_self {r : PaperRow} : mergeDoi (truthy2 r.doi r.doi) r = r := by
  rcases hd : truthy r.doi with _ | d
  · unfold truthy2
    rw [hd]
    rfl
  · unfold truthy2
    rw [hd]
    show mergeDoi [d, d] r = r
    unfold mergeDoi
    rcases hb : isArxivDoi d with _ | _
    · simp only [List.filter, hb, Bool.not_false]
      rw [← truthy_eq_some hd]
    · simp only [List.filter, hb, Bool.not_true]
      rw [← truthy_eq_some hd]

theorem mergeFillArxiv_self {r : PaperRow} :
    mergeFillArxiv (truthy2 r.arxiv_id r.arxiv_id) r = r := by
  rcases ha : truthy r.arxiv_id with _ | a
  · unfold truthy2 mergeFillArxiv
    rw [ha]
    rfl
  · unfold truthy2 mergeFillArxiv
    rw [ha]

theorem mergeFillOpenalex_self {r : PaperRow} :
    mergeFillOpenalex (truthy2 r.openalex_id r.openalex_id) r = r := by
  rcases ha : truthy r.openalex_id with _ | a
  · unfold truthy2 mergeFillOpenalex
    rw [ha]
    rfl
  · unfold truthy2 mergeFillOpenalex
    rw [ha]

theorem mergeFillUrl_self {r : PaperRow} :
    mergeFillUrl (truthy2 r.url r.url) r = r := by
  rcases ha : truthy r.url with _ | a
  · unfold truthy2 mergeFillUrl
    rw [ha]
    rfl
  · unfold truthy2 mergeFillUrl
    rw [ha]

theorem mergeFillVenue_self {r : PaperRow} :
    mergeFillVenue (truthy2 r.venue r.venue) r = r := by
  rcases ha : truthy r.venue with _ | a
  · unfold truthy2 mergeFillVenue
    rw [ha]
    rfl
  · unfold truthy2 mergeFillVenue
    rw [ha]

theorem mergeYear_self {r : PaperRow} : mergeYear (truthyYear2 r.year r.year) r = r := by
  rcases hy : truthyInt r.year with _ | y
  · unfold truthyYear2
    rw [hy]
    rfl
  · unfold truthyYear2
    rw [hy]
    show { r with year := some (listMax y [y]) } = r
    have hm : listMax y [y] = y := by simp [listMax]
    rw [hm, ← truthyInt_eq_some hy]

theorem mergeNewId_self {r : PaperRow}
    (hid : r.id = canonical_paper_id r.doi r.arxiv_id r.openalex_id r.title r.year) :
    mergeNewId r = r := by
  unfold mergeNewId
  rw [← hid]
  simp

/-- The merge-normal invariant, unpacked. -/
theorem isMergeNormal_iff {r : PaperRow} : isMergeNormal r = true ↔
    r.cited_by_count.isSome = true ∧ r.ss_cited_by_count.isSome = true ∧
    r.relevance_score.isSome = true ∧
    sortedStrB r.authors = true ∧ "" ∉ r.authors ∧
    sortedStrB r.tags = true ∧ "" ∉ r.tags ∧
    sortedStrB r.relevance_reasons = true ∧ "" ∉ r.relevance_reasons ∧
    sortedStrB r.matched_queries = true ∧ "" ∉ r.matched_queries ∧
    sortedStrB r.source_types = true ∧ "" ∉ r.source_types ∧
    sortedStrB r.aliases = true ∧ "" ∉ r.aliases ∧ r.id ∉ r.aliases ∧
    r.id = canonical_paper_id r.doi r.arxiv_id r.openalex_id r.title r.year := by
  unfold isMergeNormal
  simp only [Bool.and_eq_true, decide_eq_true_eq]
  tauto

/-- Merging a merge-normal record with itself reproduces it exactly. -/
theorem merge_self {r : PaperRow} (h : isMergeNormal r = true) :
    merge_paper_rows r r = r := by
  obtain ⟨hc, hss, hrl, hsA, heA, hsT, heT, hsR, heR, hsQ, heQ, hsS, heS, hsAl, heAl,
    hidAl, hid⟩ := isMergeNormal_iff.mp h
  unfold merge_paper_rows
  rw [mergeBase_self hsAl heAl hidAl, mergeCounts_self hc hss hrl, mergeRefs_self,
    mergeSets_self hsA heA hsT heT hsR heR hsQ heQ hsS heS, mergeDoi_self,
    mergeFillArxiv_self, mergeFillOpenalex_self, mergeFillUrl_self, mergeFillVenue_self,
    mergeYear_self, mergeNewId_self hid]

/-! ### Lemmas about the dedupe fold -/

theorem dedupeUpsert_fresh : ∀ {acc : List (String × PaperRow)} {key : String} {p : PaperRow},
    key ∉ acc.map Prod.fst → dedupeUpsert acc key p = acc ++ [(key, p)]
  | [], _, _, _ => rfl
  | (k, q) :: rest, key, p, h => by
    have hk : k ≠ key := by
      intro he
      exact h (List.mem_map.mpr ⟨(k, q), List.mem_cons_self _ _, he⟩)
    show (if k = key then (k, merge_paper_rows q p) :: rest
      else (k, q) :: dedupeUpsert rest key p) = _
    rw [if_neg hk]
    rw [dedupeUpsert_fresh (fun hm => h (List.mem_map.mpr
      (by rcases List.mem_map.mp hm with ⟨x, hx, he⟩; exact ⟨x, List.mem_cons_of_mem _ hx, he⟩)))]
    rfl

theorem foldl_dedupe_fresh : ∀ (D : List PaperRow) (acc : List (String × PaperRow)),
    (∀ r ∈ D, normalize_title_key r.title ∉ acc.map Prod.fst) →
    (D.map (fun r => normalize_title_key r.title)).Nodup →
    D.foldl (fun a p => dedupeUpsert a (normalize_title_key p.title) p) acc
      = acc ++ D.map (fun r => (normalize_title_key r.title, r))
  | [], acc, _, _ => by simp
  | r :: D', acc, hfresh, hnd => by
    have hstep : dedupeUpsert acc (normalize_title_key r.title) r
        = acc ++ [(normalize_title_key r.title, r)] :=
      dedupeUpsert_fresh (hfresh r (List.mem_cons_self _ _))
    have hnd' := (List.nodup_cons.mp hnd).2
    have hhead := (List.nodup_cons.mp hnd).1
    show List.foldl _ (dedupeUpsert acc (normalize_title_key r.title) r) D' = _
    rw [hstep]
    rw [foldl_dedupe_fresh D' (acc ++ [(normalize_title_key r.title, r)])
      (fun r' hr' => by
        simp only [List.map_append, List.map_cons, List.map_nil, List.mem_append,
          List.mem_singleton]
        rintro (hin | heq)
        · exact hfresh r' (List.mem_cons_of_mem _ hr') hin
        · exact hhead (List.mem_map.mpr ⟨r', hr', heq⟩))
      hnd']
    simp

theorem dedupeUpsert_of_mem : ∀ {L : List (String × PaperRow)} {k : String} {r : PaperRow},
    (L.map Prod.fst).Nodup → (k, r) ∈ L → merge_paper_rows r r = r →
    dedupeUpsert L k r = L
  | [], _, _, _, hmem, _ => by cases hmem
  | (k', q) :: rest, k, r, hnd, hmem, hmr => by
    by_cases hk : k' = k
    · subst hk
      show (if k' = k' then (k', merge_paper_rows q r) :: rest
        else (k', q) :: dedupeUpsert rest k' r) = _
      rw [if_pos rfl]
      have hqr : q = r := by
        rcases List.mem_cons.mp hmem with he | hin
        · exact ((Prod.ext_iff.mp he).2).symm
        · exfalso
          exact (List.nodup_cons.mp hnd).1 (List.mem_map.mpr ⟨(k', r), hin, rfl⟩)
      rw [hqr, hmr]
    · show (if k' = k then (k', merge_paper_rows q r) :: rest
        else (k', q) :: dedupeUpsert rest k r) = _
      rw [if_neg hk]
      have hin : (k, r) ∈ rest := by
        rcases List.mem_cons.mp hmem with he | hin
        · exact absurd ((Prod.ext_iff.mp he).1).symm hk
        · exact hin
      rw [dedupeUpsert_of_mem (List.nodup_cons.mp hnd).2 hin hmr]

theorem foldl_dedupe_noop : ∀ (D : List PaperRow) (L : List (String × PaperRow)),
    (L.map Prod.fst).Nodup →
    (∀ r ∈ D, (normalize_title_key r.title, r) ∈ L ∧ merge_paper_rows r r = r) →
    D.foldl (fun a p => dedupeUpsert a (normalize_title_key p.title) p) L = L
  | [], _, _, _ => rfl
  | r :: D', L, hnd, h => by
    show List.foldl _ (dedupeUpsert L (normalize_title_key r.title) r) D' = L
    rw [dedupeUpsert_of_mem hnd (h r (List.mem_cons_self _ _)).1
      (h r (List.mem_cons_self _ _)).2]
    exact foldl_dedupe_noop D' L hnd (fun r' hr' => h r' (List.mem_cons_of_mem _ hr'))

/-- On records with pairwise distinct normalized-title keys the dedupe
fold is the identity. -/
theorem dedupe_of_nodup_keys (l : List PaperRow)
    (hnd : (l.map (fun r => normalize_title_key r.title)).Nodup) :
    dedupe_accepted_papers l = l := by
  unfold dedupe_accepted_papers
  rw [foldl_dedupe_fresh l [] (fun r _ h => by cases h) hnd]
  rw [List.nil_append, List.map_map]
  rw [show (Prod.snd ∘ fun r : PaperRow => (normalize_title_key r.title, r)) = id from rfl]
  exact List.map_id l

/-! ### Claim instances -/

/-- C1 counterexample: `[rowUnsorted]` is itself an output of
`dedupe_accepted_papers`, yet deduplicating its self-concatenation changes
the record (the authors list gets sorted, the absent numeric fields get
materialized), so merging an already-deduplicated set with itself does not
always reproduce the records. -/
theorem dedupe_self_concat_changes_record :
    dedupe_accepted_papers (dedupe_accepted_papers [rowUnsorted]
        ++ dedupe_accepted_papers [rowUnsorted])
      ≠ dedupe_accepted_papers [rowUnsorted] := by
  decide

/-- C1 (amended): deduplication is idempotent on records in merge-normal
form: if every record of an already-deduplicated set is merge-normal (its
numeric fields materialized, set-valued fields sorted without empty
strings, aliases excluding its id, id canonical for its fields) and the
normalized-title keys are pairwise distinct, then deduplicating the
concatenation of the set with itself returns exactly the same records —
same ids, same field values, aliases unchanged. -/
theorem dedupe_idempotent_on_normal (D : List PaperRow)
    (hn : ∀ r ∈ D, isMergeNormal r = true)
    (hnd : (D.map (fun r => normalize_title_key r.title)).Nodup) :
    dedupe_accepted_papers (D ++ D) = D := by
  unfold dedupe_accepted_papers
  rw [List.foldl_append]
  rw [foldl_dedupe_fresh D [] (fun r _ h => by cases h) hnd]
  rw [List.nil_append]
  rw [foldl_dedupe_noop D (D.map (fun r => (normalize_title_key r.title, r)))
    (by simpa [List.map_map, Function.comp] using hnd)
    (fun r hr => ⟨List.mem_map.mpr ⟨r, hr, rfl⟩, merge_self (hn r hr)⟩)]
  rw [List.map_map]
  rw [show (Prod.snd ∘ fun r : PaperRow => (normalize_title_key r.title, r)) = id from rfl]
  exact List.map_id D

theorem dedupe_idempotent_on_normal_witness :
    (∀ r ∈ [rowNormal], isMergeNormal r = true) ∧
    (([rowNormal].map (fun r => normalize_title_key r.title)).Nodup) ∧
    dedupe_accepted_papers ([rowNormal] ++ [rowNormal]) = [rowNormal] :=
  ⟨by decide, by decide, dedupe_idempotent_on_normal [rowNormal] (by decide) (by decide)⟩

/-- C2 counterexample: two records with the same normalized title, tied
(absent) relevance scores and distinct published DOIs merge to different
canonical ids depending on encounter order, so the deduplicated sets of
the two orders differ by id. -/
theorem dedupe_order_dependent_on_conflicting_dois :
    ("doi:10.1/a" ∈ (dedupe_accepted_papers [rowDoiA, rowDoiB]).map (fun r => r.id)) ∧
    ("doi:10.1/a" ∉ (dedupe_accepted_papers [rowDoiB, rowDoiA]).map (fun r => r.id)) := by
  decide

/-- C2 (amended): deduplication is order independent when no two raw
records share a normalized-title key: on such a list every permutation
deduplicates to a permutation of the same records (the records pass
through unchanged), hence to the same set of canonical papers by id and
field values. -/
theorem dedupe_order_independent_nodup_keys (l l' : List PaperRow)
    (hperm : l'.Perm l)
    (hnd : (l.map (fun r => normalize_title_key r.title)).Nodup) :
    (dedupe_accepted_papers l').Perm (dedupe_accepted_papers l) := by
  have hnd' : (l'.map (fun r => normalize_title_key r.title)).Nodup :=
    ((hperm.map (fun r => normalize_title_key r.title)).nodup_iff).mpr hnd
  rw [dedupe_of_nodup_keys l hnd, dedupe_of_nodup_keys l' hnd']
  exact hperm

theorem dedupe_order_independent_nodup_keys_witness :
    ([rowDoiA, rowNormal].Perm [rowNormal, rowDoiA]) ∧
    (([rowNormal, rowDoiA].map (fun r => normalize_title_key r.title)).Nodup) ∧
    (dedupe_accepted_papers [rowDoiA, rowNormal]).Perm
      (dedupe_accepted_papers [rowNormal, rowDoiA]) :=
  ⟨List.Perm.swap _ _ _, by decide,
    dedupe_order_independent_nodup_keys _ _ (List.Perm.swap _ _ _) (by decide)⟩

/-- C3 counterexample: in scenario A the two original ids are
`doi:10.1000/x` and `arxiv:2001.00001`; the merged record's aliases
contain only the superseded preprint id — the DOI id is the record's
canonical id and, by the `id ∉ aliases` invariant, is not an alias, so the
aliases set does not contain both original ids. -/
theorem scenario_a_aliases_lack_doi_id :
    dedupe_accepted_papers [c3r1, c3r2] = [c3merged] ∧
    "doi:10.1000/x" ∉ c3merged.aliases := by
  decide

/-- C3 (amended): deduplicating the scenario-A records yields one
canonical record with year 2020, cited_by_count 50, canonical id
`doi:10.1000/x` (the DOI-derived original id), and aliases containing
exactly the superseded preprint-derived id `arxiv:2001.00001`. -/
theorem scenario_a_merged_record :
    dedupe_accepted_papers [c3r1, c3r2] = [c3merged] ∧
    c3merged.year = some 2020 ∧ c3merged.cited_by_count = some 50 ∧
    c3merged.id = "doi:10.1000/x" ∧ c3merged.aliases = ["arxiv:2001.00001"] := by
  decide

/-! ### The alias invariant through one merge -/

theorem mergeCounts_id_eq (e i : PaperRow) : (mergeCounts e i).id = e.id := rfl

theorem mergeCounts_aliases_eq (e i : PaperRow) : (mergeCounts e i).aliases = e.aliases := rfl

theorem mergeRefs_id_eq (e i : PaperRow) : (mergeRefs e i).id = e.id := by
  unfold mergeRefs
  split <;> rfl

theorem mergeRefs_aliases_eq (e i : PaperRow) : (mergeRefs e i).aliases = e.aliases := by
  unfold mergeRefs
  split <;> rfl

theorem mergeSets_id_eq (e i : PaperRow) : (mergeSets e i).id = e.id := rfl

theorem mergeSets_aliases_eq (e i : PaperRow) : (mergeSets e i).aliases = e.aliases := rfl

theorem mergeDoi_id_eq (ds : List String) (e : PaperRow) : (mergeDoi ds e).id = e.id := by
  unfold mergeDoi
  split <;> rfl

theorem mergeDoi_aliases_eq (ds : List String) (e : PaperRow) :
    (mergeDoi ds e).aliases = e.aliases := by
  unfold mergeDoi
  split <;> rfl

theorem mergeFillArxiv_id_eq (bs : List String) (e : PaperRow) :
    (mergeFillArxiv bs e).id = e.id := by
  unfold mergeFillArxiv
  split <;> rfl

theorem mergeFillArxiv_aliases_eq (bs : List String) (e : PaperRow) :
    (mergeFillArxiv bs e).aliases = e.aliases := by
  unfold mergeFillArxiv
  split <;> rfl

theorem mergeFillOpenalex_id_eq (bs : List String) (e : PaperRow) :
    (mergeFillOpenalex bs e).id = e.id := by
  unfold mergeFillOpenalex
  split <;> rfl

theorem mergeFillOpenalex_aliases_eq (bs : List String) (e : PaperRow) :
    (mergeFillOpenalex bs e).aliases = e.aliases := by
  unfold mergeFillOpenalex
  split <;> rfl

theorem mergeFillUrl_id_eq (bs : List String) (e : PaperRow) :
    (mergeFillUrl bs e).id = e.id := by
  unfold mergeFillUrl
  split <;> rfl

theorem mergeFillUrl_aliases_eq (bs : List String) (e : PaperRow) :
    (mergeFillUrl bs e).aliases = e.aliases := by
  unfold mergeFillUrl
  split <;> rfl

theorem mergeFillVenue_id_eq (bs : List String) (e : PaperRow) :
    (mergeFillVenue bs e).id = e.id := by
  unfold mergeFillVenue
  split <;> rfl

theorem mergeFillVenue_aliases_eq (bs : List String) (e : PaperRow) :
    (mergeFillVenue bs e).aliases = e.aliases := by
  unfold mergeFillVenue
  split <;> rfl

theorem mergeYear_id_eq (ys : List ℤ) (e : PaperRow) : (mergeYear ys e).id = e.id := by
  unfold mergeYear
  split <;> rfl

theorem mergeYear_aliases_eq (ys : List ℤ) (e : PaperRow) :
    (mergeYear ys e).aliases = e.aliases := by
  unfold mergeYear
  split <;> rfl

/-- The middle merge stages (counts through year) change neither the id
nor the aliases of the base record. -/
theorem mergeMid_id_eq (e i : PaperRow) :
    (mergeYear (truthyYear2 e.year i.year) (mergeFillVenue (truthy2 e.venue i.venue)
      (mergeFillUrl (truthy2 e.url i.url) (mergeFillOpenalex (truthy2 e.openalex_id i.openalex_id)
        (mergeFillArxiv (truthy2 e.arxiv_id i.arxiv_id) (mergeDoi (truthy2 e.doi i.doi)
          (mergeSets (mergeRefs (mergeCounts (mergeBase e i) i) i) i))))))).id
      = (mergeBase e i).id := by
  rw [mergeYear_id_eq, mergeFillVenue_id_eq, mergeFillUrl_id_eq, mergeFillOpenalex_id_eq,
    mergeFillArxiv_id_eq, mergeDoi_id_eq, mergeSets_id_eq, mergeRefs_id_eq, mergeCounts_id_eq]

theorem mergeMid_aliases_eq (e i : PaperRow) :
    (mergeYear (truthyYear2 e.year i.year) (mergeFillVenue (truthy2 e.venue i.venue)
      (mergeFillUrl (truthy2 e.url i.url) (mergeFillOpenalex (truthy2 e.openalex_id i.openalex_id)
        (mergeFillArxiv (truthy2 e.arxiv_id i.arxiv_id) (mergeDoi (truthy2 e.doi i.doi)
          (mergeSets (mergeRefs (mergeCounts (mergeBase e i) i) i) i))))))).aliases
      = (mergeBase e i).aliases := by
  rw [mergeYear_aliases_eq, mergeFillVenue_aliases_eq, mergeFillUrl_aliases_eq,
    mergeFillOpenalex_aliases_eq, mergeFillArxiv_aliases_eq, mergeDoi_aliases_eq,
    mergeSets_aliases_eq, mergeRefs_aliases_eq, mergeCounts_aliases_eq]

/-- Membership in the aliases produced by the base-selection step. -/
theorem mem_mergeBase_aliases_of (e i : PaperRow) (a : String)
    (hmem : a ∈ e.aliases ∨ a ∈ i.aliases) (hne : a ≠ "")
    (hnid : a ≠ (mergeBase e i).id) : a ∈ (mergeBase e i).aliases := by
  unfold mergeBase at hnid ⊢
  by_cases hlt : orQ e.relevance_score < orQ i.relevance_score
  · rw [if_pos hlt] at hnid ⊢
    show a ∈ sortedUnion _
    rw [mem_sortedUnion, List.mem_filter]
    constructor
    · rcases hmem with h | h
      · exact List.mem_append.mpr (Or.inl (List.mem_append.mpr (Or.inl h)))
      · exact List.mem_append.mpr (Or.inr h)
    · simp only [Bool.and_eq_true, decide_eq_true_eq]
      exact ⟨hne, hnid⟩
  · rw [if_neg hlt] at hnid ⊢
    show a ∈ sortedUnion _
    rw [mem_sortedUnion, List.mem_filter]
    constructor
    · rcases hmem with h | h
      · exact List.mem_append.mpr (Or.inl (List.mem_append.mpr (Or.inl h)))
      · exact List.mem_append.mpr (Or.inr h)
    · simp only [Bool.and_eq_true, decide_eq_true_eq]
      exact ⟨hne, hnid⟩

/-- Every alias produced by the base-selection step differs from the base
id (and is non-empty). -/
theorem mem_mergeBase_aliases_ne (e i : PaperRow) (a : String)
    (ha : a ∈ (mergeBase e i).aliases) : a ≠ "" ∧ a ≠ (mergeBase e i).id := by
  unfold mergeBase at ha ⊢
  by_cases hlt : orQ e.relevance_score < orQ i.relevance_score
  · rw [if_pos hlt] at ha ⊢
    replace ha : a ∈ sortedUnion _ := ha
    rw [mem_sortedUnion, List.mem_filter] at ha
    have := ha.2
    simp only [Bool.and_eq_true, decide_eq_true_eq] at this
    exact this
  · rw [if_neg hlt] at ha ⊢
    replace ha : a ∈ sortedUnion _ := ha
    rw [mem_sortedUnion, List.mem_filter] at ha
    have := ha.2
    simp only [Bool.and_eq_true, decide_eq_true_eq] at this
    exact this

/-- The recanonicalization step keeps the id out of the aliases. -/
theorem mergeNewId_id_notin (M : PaperRow) (h : ∀ a ∈ M.aliases, a ≠ M.id) :
    (mergeNewId M).id ∉ (mergeNewId M).aliases := by
  unfold mergeNewId
  by_cases hch : canonical_paper_id M.doi M.arxiv_id M.openalex_id M.title M.year ≠ M.id
  · rw [if_pos hch]
    intro hmem
    replace hmem : _ ∈ sortedUnion _ := hmem
    rw [mem_sortedUnion, List.mem_filter] at hmem
    have := hmem.2
    simp only [Bool.and_eq_true, decide_eq_true_eq] at this
    exact this.2 rfl
  · rw [if_neg hch]
    intro hmem
    exact h _ hmem rfl

/-- The recanonicalization step keeps every old alias, and the old id,
except the new id itself. -/
theorem mergeNewId_aliases_of (M : PaperRow) (a : String)
    (hmem : a ∈ M.aliases ∨ a = M.id) (hne : a ≠ "") (hnid : a ≠ (mergeNewId M).id) :
    a ∈ (mergeNewId M).aliases := by
  unfold mergeNewId at hnid ⊢
  by_cases hch : canonical_paper_id M.doi M.arxiv_id M.openalex_id M.title M.year ≠ M.id
  · rw [if_pos hch] at hnid ⊢
    show a ∈ sortedUnion _
    rw [mem_sortedUnion, List.mem_filter]
    constructor
    · rcases hmem with h | h
      · exact List.mem_append.mpr (Or.inl h)
      · exact List.mem_append.mpr (Or.inr (h ▸ List.mem_singleton.mpr rfl))
    · simp only [Bool.and_eq_true, decide_eq_true_eq]
      exact ⟨hne, hnid⟩
  · rw [if_neg hch] at hnid ⊢
    rcases hmem with h | h
    · exact h
    · exact absurd h hnid

/-- C4 counterexample: both inputs satisfy `id ∉ aliases`, the incoming
record carries the existing record's id among its aliases, yet that
identifier is absent from the merged aliases (it became the merged
record's id), so aliases are not preserved verbatim by a merge. -/
theorem merge_alias_dropped :
    c4existing.id ∉ c4existing.aliases ∧
    c4incoming.id ∉ c4incoming.aliases ∧
    "doi:10.1/a" ∈ c4incoming.aliases ∧
    "doi:10.1/a" ∉ (merge_paper_rows c4existing c4incoming).aliases := by
  decide

/-- C4 (amended): for any two records, the merged record satisfies
`id ∉ aliases`, and aliases accumulate monotonically up to the merged id:
every non-empty identifier in either input's aliases is present in the
merged aliases unless it is the merged record's own id. -/
theorem merge_alias_invariant (e i : PaperRow) :
    (merge_paper_rows e i).id ∉ (merge_paper_rows e i).aliases ∧
    (∀ a, a ∈ e.aliases ∨ a ∈ i.aliases → a ≠ "" → a ≠ (merge_paper_rows e i).id →
      a ∈ (merge_paper_rows e i).aliases) := by
  have hrw : merge_paper_rows e i
      = mergeNewId (mergeYear (truthyYear2 e.year i.year)
        (mergeFillVenue (truthy2 e.venue i.venue) (mergeFillUrl (truthy2 e.url i.url)
          (mergeFillOpenalex (truthy2 e.openalex_id i.openalex_id)
            (mergeFillArxiv (truthy2 e.arxiv_id i.arxiv_id) (mergeDoi (truthy2 e.doi i.doi)
              (mergeSets (mergeRefs (mergeCounts (mergeBase e i) i) i) i))))))) := rfl
  constructor
  · rw [hrw]
    apply mergeNewId_id_notin
    intro a ha
    rw [mergeMid_aliases_eq] at ha
    rw [mergeMid_id_eq]
    exact (mem_mergeBase_aliases_ne e i a ha).2
  · intro a hmem hne hnid
    rw [hrw] at hnid ⊢
    apply mergeNewId_aliases_of _ _ _ hne hnid
    rw [mergeMid_aliases_eq, mergeMid_id_eq]
    by_cases hbid : a = (mergeBase e i).id
    · exact Or.inr hbid
    · exact Or.inl (mem_mergeBase_aliases_of e i a hmem hne hbid)

theorem merge_alias_invariant_witness :
    (merge_paper_rows rowWithAlias rowNormal).id ∉
      (merge_paper_rows rowWithAlias rowNormal).aliases ∧
    "arxiv:0001.0001" ∈ (merge_paper_rows rowWithAlias rowNormal).aliases :=
  ⟨(merge_alias_invariant rowWithAlias rowNormal).1,
   (merge_alias_invariant rowWithAlias rowNormal).2 "arxiv:0001.0001"
     (Or.inl (by decide)) (by decide) (by decide)⟩

/-! ### Thread assignment -/

theorem minByPrio_mem : ∀ (rest : List String) (best : String),
    minByPrio best rest ∈ best :: rest
  | [], _ => List.mem_singleton.mpr rfl
  | t :: rest', best => by
    unfold minByPrio
    by_cases h : THREAD_PRIORITY t < THREAD_PRIORITY best
    · rw [if_pos h]
      rcases List.mem_cons.mp (minByPrio_mem rest' t) with he | hm
      · exact List.mem_cons.mpr (Or.inr (List.mem_cons.mpr (Or.inl he)))
      · exact List.mem_cons.mpr (Or.inr (List.mem_cons.mpr (Or.inr hm)))
    · rw [if_neg h]
      rcases List.mem_cons.mp (minByPrio_mem rest' best) with he | hm
      · exact List.mem_cons.mpr (Or.inl he)
      · exact List.mem_cons.mpr (Or.inr (List.mem_cons.mpr (Or.inr hm)))

theorem minByPrio_le : ∀ (rest : List String) (best t : String), t ∈ best :: rest →
    THREAD_PRIORITY (minByPrio best rest) ≤ THREAD_PRIORITY t
  | [], best, t, ht => by
    rcases List.mem_cons.mp ht with rfl | h
    · exact le_refl _
    · cases h
  | u :: rest', best, t, ht => by
    unfold minByPrio
    by_cases h : THREAD_PRIORITY u < THREAD_PRIORITY best
    · rw [if_pos h]
      rcases List.mem_cons.mp ht with rfl | ht'
      · exact le_trans (minByPrio_le rest' u u (List.mem_cons_self _ _)) (le_of_lt h)
      · exact minByPrio_le rest' u t ht'
    · rw [if_neg h]
      rcases List.mem_cons.mp ht with rfl | ht'
      · exact minByPrio_le rest' t t (List.mem_cons_self _ _)
      · rcases List.mem_cons.mp ht' with rfl | ht''
        · exact le_trans (minByPrio_le rest' best best (List.mem_cons_self _ _))
            (Nat.le_of_not_lt h)
        · exact minByPrio_le rest' best t (List.mem_cons.mpr (Or.inr ht''))

/-- Embeds `assign_thread` as one match over the specific recognized tags. -/
theorem assign_thread_eq (tags : List String) :
    assign_thread tags =
      match (tags.filter (fun t => decide (t ∈ THREAD_ORDER))).filter
          (fun t => decide (t ≠ "classical_calcvar")) with
      | s :: rest => minByPrio s rest
      | [] => "classical_calcvar" := by
  unfold assign_thread
  rcases tags with _ | ⟨t0, ts⟩
  · rfl
  · rcases htt : (t0 :: ts).filter (fun t => decide (t ∈ THREAD_ORDER)) with _ | ⟨a, b⟩
    · rfl
    · rfl

/-- C7: `assign_thread` always returns a member of the fixed thread
enumeration; it returns the fallback `classical_calcvar` exactly when the
tag set holds no recognized non-fallback tag, and otherwise a recognized
non-fallback tag of the paper with the lowest configured priority index;
in particular both orders of `{direct_methods, classical_calcvar}` are
assigned `direct_methods`. -/
theorem assign_thread_spec (tags : List String) :
    assign_thread tags ∈ THREAD_ORDER ∧
    ((∀ t ∈ tags, t ∈ THREAD_ORDER → t = "classical_calcvar") →
      assign_thread tags = "classical_calcvar") ∧
    (∀ s ∈ tags, s ∈ THREAD_ORDER → s ≠ "classical_calcvar" →
      assign_thread tags ∈ tags ∧ assign_thread tags ≠ "classical_calcvar" ∧
      ∀ t ∈ tags, t ∈ THREAD_ORDER → t ≠ "classical_calcvar" →
        THREAD_PRIORITY (assign_thread tags) ≤ THREAD_PRIORITY t) ∧
    assign_thread ["direct_methods", "classical_calcvar"] = "direct_methods" ∧
    assign_thread ["classical_calcvar", "direct_methods"] = "direct_methods" := by
  refine ⟨?_, ?_, ?_, by decide, by decide⟩
  · rw [assign_thread_eq]
    rcases hsp : (tags.filter (fun t => decide (t ∈ THREAD_ORDER))).filter
        (fun t => decide (t ≠ "classical_calcvar")) with _ | ⟨s0, rest⟩
    · show "classical_calcvar" ∈ THREAD_ORDER
      decide
    · show minByPrio s0 rest ∈ THREAD_ORDER
      have hm : minByPrio s0 rest ∈ (tags.filter (fun t => decide (t ∈ THREAD_ORDER))).filter
          (fun t => decide (t ≠ "classical_calcvar")) := by
        rw [hsp]
        exact minByPrio_mem rest s0
      have h1 := (List.mem_filter.mp hm).1
      have h2 := (List.mem_filter.mp h1).2
      simpa using h2
  · intro hall
    rw [assign_thread_eq]
    rcases hsp : (tags.filter (fun t => decide (t ∈ THREAD_ORDER))).filter
        (fun t => decide (t ≠ "classical_calcvar")) with _ | ⟨s0, rest⟩
    · rfl
    · exfalso
      have hm : s0 ∈ (tags.filter (fun t => decide (t ∈ THREAD_ORDER))).filter
          (fun t => decide (t ≠ "classical_calcvar")) := by
        rw [hsp]
        exact List.mem_cons_self _ _
      have h1 := List.mem_filter.mp hm
      have h2 := List.mem_filter.mp h1.1
      have hne : s0 ≠ "classical_calcvar" := by simpa using h1.2
      have hTO : s0 ∈ THREAD_ORDER := by simpa using h2.2
      exact hne (hall s0 h2.1 hTO)
  · intro s hs hsTO hsne
    have hsmem : s ∈ (tags.filter (fun t => decide (t ∈ THREAD_ORDER))).filter
        (fun t => decide (t ≠ "classical_calcvar")) :=
      List.mem_filter.mpr ⟨List.mem_filter.mpr ⟨hs, by simpa using hsTO⟩, by simpa using hsne⟩
    rcases hsp : (tags.filter (fun t => decide (t ∈ THREAD_ORDER))).filter
        (fun t => decide (t ≠ "classical_calcvar")) with _ | ⟨s0, rest⟩
    · rw [hsp] at hsmem
      cases hsmem
    · rw [assign_thread_eq, hsp]
      have hm : minByPrio s0 rest ∈ (tags.filter (fun t => decide (t ∈ THREAD_ORDER))).filter
          (fun t => decide (t ≠ "classical_calcvar")) := by
        rw [hsp]
        exact minByPrio_mem rest s0
      refine ⟨(List.mem_filter.mp (List.mem_filter.mp hm).1).1, by
          simpa using (List.mem_filter.mp hm).2, ?_⟩
      intro t htag htTO htne
      have htmem : t ∈ (tags.filter (fun t => decide (t ∈ THREAD_ORDER))).filter
          (fun t => decide (t ≠ "classical_calcvar")) :=
        List.mem_filter.mpr ⟨List.mem_filter.mpr ⟨htag, by simpa using htTO⟩,
          by simpa using htne⟩
      rw [hsp] at htmem
      exact minByPrio_le rest s0 t htmem

theorem assign_thread_spec_witness :
    assign_thread ["classical_calcvar", "direct_methods"] ∈ THREAD_ORDER ∧
    assign_thread ["classical_calcvar", "direct_methods"]
      ∈ ["classical_calcvar", "direct_methods"] ∧
    THREAD_PRIORITY (assign_thread ["classical_calcvar", "direct_methods"])
      ≤ THREAD_PRIORITY "direct_methods" := by
  have h := assign_thread_spec ["classical_calcvar", "direct_methods"]
  have hc := h.2.2.1 "direct_methods" (by decide) (by decide) (by decide)
  exact ⟨h.1, hc.1, hc.2.2 "direct_methods" (by decide) (by decide) (by decide)⟩

/-! ### Citation graph validity -/

/-- C6: every edge emitted by `build_citation_graph` — for any corpus and
any reference-identifier lookup table — has distinct endpoints, and both
endpoints are ids of corpus papers. -/
theorem build_citation_graph_valid (papers : List APaper)
    (lookup : String → Option String) (e : CitationEdge)
    (he : e ∈ build_citation_graph papers lookup) :
    e.source ≠ e.target ∧ e.source ∈ papers.map (fun p => p.id) ∧
      e.target ∈ papers.map (fun p => p.id) := by
  unfold build_citation_graph at he
  rw [List.mem_flatMap] at he
  obtain ⟨p, hp, he'⟩ := he
  rw [List.mem_filterMap] at he'
  obtain ⟨ref, _href, hmap⟩ := he'
  rcases hl : lookup ref with _ | tid
  · rw [hl] at hmap
    cases hmap
  · rw [hl] at hmap
    have hmap' : (if tid ≠ "" ∧ tid ∈ papers.map (fun p => p.id) ∧ tid ≠ p.id
        then some (CitationEdge.mk p.id tid) else none) = some e := hmap
    by_cases hc : tid ≠ "" ∧ tid ∈ papers.map (fun p => p.id) ∧ tid ≠ p.id
    · rw [if_pos hc] at hmap'
      cases hmap'
      exact ⟨fun h => hc.2.2 h.symm, List.mem_map.mpr ⟨p, hp, rfl⟩, hc.2.1⟩
    · rw [if_neg hc] at hmap'
      cases hmap'

theorem build_citation_graph_valid_witness :
    (CitationEdge.mk "A" "B" ∈ build_citation_graph [apciteA, apciteB]
      (fun r => if r = "W2" then some "B" else none)) ∧
    ("A" : String) ≠ "B" ∧
    ("A" : String) ∈ [apciteA, apciteB].map (fun p => p.id) ∧
    ("B" : String) ∈ [apciteA, apciteB].map (fun p => p.id) := by
  have hmem : CitationEdge.mk "A" "B" ∈ build_citation_graph [apciteA, apciteB]
      (fun r => if r = "W2" then some "B" else none) := by decide
  have h := build_citation_graph_valid [apciteA, apciteB]
    (fun r => if r = "W2" then some "B" else none) (CitationEdge.mk "A" "B") hmem
  exact ⟨hmem, h.1, h.2.1, h.2.2⟩

/-! ### Layout seeding and the process hash -/

/-- C8: the warm layout coordinates are a function of the process's
string-hash: two runs whose built-in `hash` salts differ on the paper's id
produce different y coordinates for the same influence-sorted paper list
and thread order, so the coordinates are not reproducible across processes
(Python salts `hash(str)` per process unless `PYTHONHASHSEED` is fixed). -/
theorem warm_positions_depend_on_hash :
    compute_warm_positions (fun _ => 0) [annWarm] THREAD_ORDER ≠
      compute_warm_positions (fun _ => 1) [annWarm] THREAD_ORDER := by
  intro h
  have h1 : (compute_warm_positions (fun _ => 0) [annWarm] THREAD_ORDER).map
        (fun kv => kv.2.2)
      = (compute_warm_positions (fun _ => 1) [annWarm] THREAD_ORDER).map
        (fun kv => kv.2.2) := by rw [h]
  have e0 : (compute_warm_positions (fun _ => 0) [annWarm] THREAD_ORDER).map
      (fun kv => kv.2.2) = [pyRoundTo (((-30 : ℤ) : ℚ)) 10] := rfl
  have e1 : (compute_warm_positions (fun _ => 1) [annWarm] THREAD_ORDER).map
      (fun kv => kv.2.2) = [pyRoundTo (((-29 : ℤ) : ℚ)) 10] := rfl
  rw [e0, e1] at h1
  have c0 : pyRoundTo (((-30 : ℤ) : ℚ)) 10 = -30 := by
    unfold pyRoundTo pyRoundInt
    have hcast : ((-30 : ℤ) : ℚ) * 10 = ((-300 : ℤ) : ℚ) := by push_cast; ring
    rw [hcast, Int.floor_intCast]
    norm_num
  have c1 : pyRoundTo (((-29 : ℤ) : ℚ)) 10 = -29 := by
    unfold pyRoundTo pyRoundInt
    have hcast : ((-29 : ℤ) : ℚ) * 10 = ((-290 : ℤ) : ℚ) := by push_cast; ring
    rw [hcast, Int.floor_intCast]
    norm_num
  rw [c0, c1] at h1
  have : ((-30 : ℚ)) = -29 := List.head_eq_of_cons_eq h1
  norm_num at this

/-! ### Empty corpus -/

/-- C9 counterexample: on an empty paper list `analyze.main` prints and
returns before building anything, so no output views — not even empty
ones — are produced. -/
theorem analyze_main_empty_no_views :
    (analyze_main (fun _ => 0) 800 []).isSome = false := rfl

/-- C9 (amended): on an empty paper list the pipeline short-circuits
cleanly — it returns before any normalization formula is evaluated, so
nothing divides by zero — and produces no output views (for any process
hash and any top-N cap). -/
theorem analyze_main_short_circuits (hashFn : String → ℤ) (topN : ℕ) :
    analyze_main hashFn topN [] = none := rfl

/-! ### Scoring a record with a missing year -/

/-- C10: a paper whose year is absent is rejected outright by
`score_paper`: sentinel score `-999.0`, the single reason
`below_min_year`, no tags, zero matched domains — independently of
`min_year`, the known-researcher set and every other field. -/
theorem score_paper_missing_year (paper : CandidatePaper) (known : List String)
    (min_year : ℤ) (h : paper.year = none) :
    score_paper paper known min_year = (-999, ["below_min_year"], [], 0) := by
  unfold score_paper
  rw [h]

theorem score_paper_missing_year_witness :
    candNoYear.year = none ∧
    score_paper candNoYear ["ennio de giorgi"] 1950 = (-999, ["below_min_year"], [], 0) :=
  ⟨rfl, score_paper_missing_year candNoYear ["ennio de giorgi"] 1950 rfl⟩

/-! ### Influence bounds -/

theorem le_foldl_max {α : Type} [LinearOrder α] : ∀ (xs : List α) (x : α), x ≤ xs.foldl max x
  | [], _ => le_refl _
  | z :: xs, x => le_trans (le_max_left x z) (le_foldl_max xs (max x z))

theorem mem_le_foldl_max {α : Type} [LinearOrder α] : ∀ (xs : List α) (x y : α), y ∈ xs →
    y ≤ xs.foldl max x
  | [], _, _, hy => by cases hy
  | z :: xs, x, y, hy => by
    rcases List.mem_cons.mp hy with rfl | hy'
    · exact le_trans (le_max_right x y) (le_foldl_max xs (max x y))
    · exact mem_le_foldl_max xs (max x z) y hy'

theorem le_maxCited (papers : List APaper) (p : APaper) (hp : p ∈ papers) :
    orZ p.cited_by_count ≤ maxCited papers := by
  unfold maxCited
  rcases hm : papers.map (fun q => orZ q.cited_by_count) with _ | ⟨x, xs⟩
  · exact absurd (List.map_eq_nil_iff.mp hm ▸ hp) (List.not_mem_nil p)
  · rw [hm]
    have hmem : orZ p.cited_by_count ∈ papers.map (fun q => orZ q.cited_by_count) :=
      List.mem_map.mpr ⟨p, hp, rfl⟩
    rw [hm] at hmem
    rcases List.mem_cons.mp hmem with he | hmem'
    · rw [he]
      exact le_foldl_max xs x
    · exact mem_le_foldl_max xs x _ hmem'

theorem le_maxRel (papers : List APaper) (p : APaper) (hp : p ∈ papers) :
    orR p.relevance_score ≤ maxRel papers := by
  unfold maxRel
  rcases hm : papers.map (fun q => orR q.relevance_score) with _ | ⟨x, xs⟩
  · exact absurd (List.map_eq_nil_iff.mp hm ▸ hp) (List.not_mem_nil p)
  · rw [hm]
    have hmem : orR p.relevance_score ∈ papers.map (fun q => orR q.relevance_score) :=
      List.mem_map.mpr ⟨p, hp, rfl⟩
    rw [hm] at hmem
    rcases List.mem_cons.mp hmem with he | hmem'
    · rw [he]
      exact le_foldl_max xs x
    · exact mem_le_foldl_max xs x _ hmem'

theorem log1p_nonneg {x : ℝ} (h : 0 ≤ x) : 0 ≤ log1p x :=
  Real.log_nonneg (by linarith)

theorem log1p_le_log1p {x y : ℝ} (hx : 0 ≤ x) (hxy : x ≤ y) : log1p x ≤ log1p y :=
  Real.log_le_log (by linarith) (by linarith)

theorem log1p_pos {x : ℝ} (h : 0 < x) : 0 < log1p x :=
  Real.log_pos (by linarith)

theorem pyRoundInt_bounds (m : ℝ) (h0 : 0 ≤ m) (h1 : m ≤ 10000) :
    0 ≤ pyRoundInt m ∧ pyRoundInt m ≤ 10000 := by
  have hf0 : 0 ≤ ⌊m⌋ := Int.floor_nonneg.mpr h0
  have hfm : (⌊m⌋ : ℝ) ≤ m := Int.floor_le m
  have hf10 : ⌊m⌋ ≤ 10000 := by
    have : (⌊m⌋ : ℝ) ≤ 10000 := le_trans hfm h1
    exact_mod_cast this
  unfold pyRoundInt
  by_cases hr1 : m - (⌊m⌋ : ℝ) < 1 / 2
  · rw [if_pos hr1]
    exact ⟨hf0, hf10⟩
  · rw [if_neg hr1]
    have hge : 1 / 2 ≤ m - (⌊m⌋ : ℝ) := le_of_not_lt hr1
    have hstrict : ⌊m⌋ < 10000 := by
      have : (⌊m⌋ : ℝ) < 10000 := by linarith
      exact_mod_cast this
    by_cases hr2 : 1 / 2 < m - (⌊m⌋ : ℝ)
    · rw [if_pos hr2]
      omega
    · rw [if_neg hr2]
      by_cases he : Even ⌊m⌋
      · rw [if_pos he]
        exact ⟨hf0, hf10⟩
      · rw [if_neg he]
        omega

theorem pyRoundTo4_bounds {x : ℝ} (h0 : 0 ≤ x) (h1 : x ≤ 1) :
    0 ≤ pyRoundTo x 10000 ∧ pyRoundTo x 10000 ≤ 1 := by
  have hm0 : (0 : ℝ) ≤ x * 10000 := by nlinarith
  have hm1 : x * 10000 ≤ 10000 := by nlinarith
  have hb := pyRoundInt_bounds (x * 10000) hm0 hm1
  unfold pyRoundTo
  constructor
  · apply div_nonneg
    · exact_mod_cast hb.1
    · norm_num
  · rw [div_le_one (by norm_num : (0 : ℝ) < 10000)]
    exact_mod_cast hb.2

theorem compute_influence_bounds_core (paper : APaper) (icc : String → ℕ)
    (maxC : ℤ) (maxR : ℝ) (hc : 0 ≤ orZ paper.cited_by_count)
    (hr : 0 ≤ orR paper.relevance_score)
    (hcM : orZ paper.cited_by_count ≤ maxC) (hrM : orR paper.relevance_score ≤ maxR) :
    0 ≤ compute_influence paper icc maxC maxR ∧ compute_influence paper icc maxC maxR ≤ 1 := by
  unfold compute_influence
  have hA0 : 0 ≤ log1p ((orZ paper.cited_by_count : ℤ) : ℝ) :=
    log1p_nonneg (by exact_mod_cast hc)
  have hden1 : (1 : ℝ) ≤ ((max maxC 1 : ℤ) : ℝ) := by exact_mod_cast le_max_right maxC 1
  have hdenpos : 0 < log1p ((max maxC 1 : ℤ) : ℝ) := log1p_pos (by linarith)
  have hA1 : log1p ((orZ paper.cited_by_count : ℤ) : ℝ) ≤ log1p ((max maxC 1 : ℤ) : ℝ) :=
    log1p_le_log1p (by exact_mod_cast hc)
      (by exact_mod_cast le_trans hcM (le_max_left maxC 1))
  have hAlo : 0 ≤ log1p ((orZ paper.cited_by_count : ℤ) : ℝ) / log1p ((max maxC 1 : ℤ) : ℝ) :=
    div_nonneg hA0 (le_of_lt hdenpos)
  have hAhi : log1p ((orZ paper.cited_by_count : ℤ) : ℝ) / log1p ((max maxC 1 : ℤ) : ℝ) ≤ 1 :=
    (div_le_one hdenpos).mpr hA1
  have hBden : (1 : ℝ) ≤ max maxR 1 := le_max_right _ _
  have hBlo : 0 ≤ orR paper.relevance_score / max maxR 1 := div_nonneg hr (by linarith)
  have hBhi : orR paper.relevance_score / max maxR 1 ≤ 1 :=
    (div_le_one (by linarith)).mpr (le_trans hrM (le_max_left _ _))
  have hClo : 0 ≤ min (log1p ((icc paper.id : ℕ) : ℝ) / log1p 50) 1 :=
    le_min (div_nonneg (log1p_nonneg (Nat.cast_nonneg _))
      (le_of_lt (log1p_pos (by norm_num)))) zero_le_one
  have hChi : min (log1p ((icc paper.id : ℕ) : ℝ) / log1p 50) 1 ≤ 1 := min_le_right _ _
  have hDlo : (0 : ℝ) ≤
      max 0 (min 1 (((((truthyInt paper.year).getD 1950 : ℤ) : ℝ) - ((2025 : ℝ) - 30)) / 30)) :=
    le_max_left _ _
  have hDhi :
      max 0 (min 1 (((((truthyInt paper.year).getD 1950 : ℤ) : ℝ) - ((2025 : ℝ) - 30)) / 30)) ≤ 1 :=
    sup_le zero_le_one (min_le_left _ _)
  apply pyRoundTo4_bounds
  · nlinarith
  · nlinarith


/-- C5: for every paper in the finalized corpus, given non-negative
cited_by_count and relevance_score (the in-corpus in-degree is a natural
number by construction) and with the corpus-wide maxima computed over that
same corpus, `compute_influence` returns a value in [0, 1]. -/
theorem compute_influence_bounds (papers : List APaper) (p : APaper) (hp : p ∈ papers)
    (hc : 0 ≤ orZ p.cited_by_count) (hr : 0 ≤ orR p.relevance_score) :
    0 ≤ compute_influence p
        (in_corpus_citations papers (fun r => dictGet (oaMap papers) r))
        (maxCited papers) (maxRel papers) ∧
      compute_influence p
        (in_corpus_citations papers (fun r => dictGet (oaMap papers) r))
        (maxCited papers) (maxRel papers) ≤ 1 :=
  compute_influence_bounds_core p _ (maxCited papers) (maxRel papers) hc hr
    (le_maxCited papers p hp) (le_maxRel papers p hp)

theorem compute_influence_bounds_witness :
    0 ≤ compute_influence apInfl
        (in_corpus_citations [apInfl] (fun r => dictGet (oaMap [apInfl]) r))
        (maxCited [apInfl]) (maxRel [apInfl]) ∧
      compute_influence apInfl
        (in_corpus_citations [apInfl] (fun r => dictGet (oaMap [apInfl]) r))
        (maxCited [apInfl]) (maxRel [apInfl]) ≤ 1 :=
  compute_influence_bounds [apInfl] apInfl (List.mem_singleton.mpr rfl) (by decide)
    (by
      have h : orR apInfl.relevance_score = 1 := rfl
      rw [h]
      norm_num)

end Calcvar
